import Mathlib

/-
Shallow embedding of `PYME/experimental/triangle_mesh_utils.c` (the half-edge
mesh kernel of python-microscopy): the batch routines `update_vertex_neighbors`
and `update_face_normals`, together with the 3-vector helpers `norm` and
`cross`.

Modelling conventions:
  * array indices are `Int`; the sentinel "no link" value is `-1`, exactly as
    in the C code;
  * the three backing arrays (`halfedges`, `vertices`, `faces`) are modelled
    as total functions `Int → record`; a concrete mesh maps every index that
    the C program would never touch to an explicit filler record (reading at
    such an index is undefined behaviour in C, so the traversal additionally
    records every half-edge index it dereferences in a `reads` trace, which
    lets out-of-range accesses be observed);
  * C `float` arithmetic is modelled over `ℝ` (the spec states its numeric
    properties "up to floating-point rounding");
  * the unbounded C `while` loops are modelled with an explicit fuel
    parameter; a run that exhausts fuel is marked with a dedicated exit tag
    and excluded by hypothesis where termination matters;
  * `NEIGHBORSIZE` (the spec calls it `N_MAX`) and `VECTORSIZE` come from the
    repository header `triangle_mesh_utils.h`, which is not under `src/`;
    `VECTORSIZE = 3` is forced by the spec (`vec3`), and `N_MAX` is kept as an
    explicit parameter `N` of every function that uses it, so all statements
    hold for whatever value the header fixes.
-/

namespace TriMesh

noncomputable section

/-- Index into one of the flat mesh arrays; `-1` is the sentinel. -/
abbrev Idx := Int

/-- A 3-vector (C `float[VECTORSIZE]` with `VECTORSIZE = 3`). -/
structure Vec3 where
  x : ℝ
  y : ℝ
  z : ℝ

def vzero : Vec3 := ⟨0, 0, 0⟩

def vadd (a b : Vec3) : Vec3 := ⟨a.x + b.x, a.y + b.y, a.z + b.z⟩

def vsub (a b : Vec3) : Vec3 := ⟨a.x - b.x, a.y - b.y, a.z - b.z⟩

def vsmul (s : ℝ) (a : Vec3) : Vec3 := ⟨s * a.x, s * a.y, s * a.z⟩

def vdiv (a : Vec3) (s : ℝ) : Vec3 := ⟨a.x / s, a.y / s, a.z / s⟩

/-- Embeds the C function `norm`: Euclidean length `sqrt (Σ pos[i]^2)`. -/
def norm3 (v : Vec3) : ℝ := Real.sqrt (v.x * v.x + v.y * v.y + v.z * v.z)

/-- Embeds the C function `cross`: `n[0] = a1*b2 - a2*b1`, etc. -/
def cross (a b : Vec3) : Vec3 :=
  ⟨a.y * b.z - a.z * b.y, a.z * b.x - a.x * b.z, a.x * b.y - a.y * b.x⟩

/-- Modelled from the spec: field layout of `halfedge_t` (the header
`triangle_mesh_utils.h` is not under `src/`); spec section 3 lists
`vertex` (the vertex this edge points to), `twin`, `next`, `prev`, `face`,
`length`, and the C file reads and writes exactly these fields. -/
structure HalfEdge where
  vertex : Idx
  twin : Idx
  next : Idx
  prev : Idx
  face : Idx
  length : ℝ

/-- Modelled from the spec: field layout of `vertex_t`; spec section 3 lists
`position`, `normal`, `halfedge` (outgoing anchor), `valence`, and the
fixed-capacity `neighbors` array (held here as a list of length `N_MAX`). -/
structure Vertex where
  position : Vec3
  normal : Vec3
  halfedge : Idx
  valence : Int
  neighbors : List Idx

/-- Modelled from the spec: field layout of `face_t`; spec section 3 lists
`halfedge`, `normal`, `area`. -/
structure Face where
  halfedge : Idx
  normal : Vec3
  area : ℝ

/-- The three externally owned flat arrays, as total maps from indices. -/
structure Mesh where
  halfedges : Idx → HalfEdge
  vertices : Idx → Vertex
  faces : Idx → Face

/-! ### Forward sweep (the first `while (1)` loop of `update_vertex_neighbors`,
C lines 141-175) -/

/-- Why the forward sweep stopped: top-of-loop `curr_idx == -1` check,
`twin == -1` (boundary edge), `curr_idx == orig_idx` (ring closed),
or model fuel exhausted (the C loop has no such case). -/
inductive FExit
  | sentinel
  | boundary
  | closed
  | fuel
deriving DecidableEq

/-- Trace of one forward sweep. `vis` lists the half-edges whose loop body was
entered (in order); `i` is the value of the C counter `i` on loop exit;
`curr`/`twin` are `curr_idx`/`twin_idx` on loop exit; `reads` lists every
half-edge index dereferenced by the loop (each `curr_edge->f` or
`twin_edge->f` access), which is how an out-of-range access at `-1` becomes
observable. -/
structure FRes where
  vis : List Idx
  i : Nat
  curr : Idx
  twin : Idx
  reads : List Idx
  exit : FExit
deriving DecidableEq

/-- The forward sweep. State: `curr` = `curr_idx`, `twin` = `twin_idx`
(always `(he curr).twin` at entry), `i` = the C counter. Each completed
iteration advances `curr_idx = twin_edge->next`, reloads
`twin_idx = curr_edge->twin` (this dereference happens in C before the
top-of-loop sentinel check, hence `c` is recorded in `reads` even when it is
`-1`), increments `i`, and stops if the new `curr_idx` equals `orig_idx`. -/
def fwd (he : Idx → HalfEdge) (orig : Idx) : Nat → Idx → Idx → Nat → FRes
  | 0, curr, twin, i => ⟨[], i, curr, twin, [], .fuel⟩
  | fuel + 1, curr, twin, i =>
    if curr = -1 then ⟨[], i, curr, twin, [], .sentinel⟩
    else if twin = -1 then ⟨[curr], i, curr, twin, [curr], .boundary⟩
    else
      let c := (he twin).next
      let t := (he c).twin
      if c = orig then ⟨[curr], i + 1, c, t, [curr, twin, c], .closed⟩
      else
        let r := fwd he orig fuel c t (i + 1)
        ⟨curr :: r.vis, r.i, r.curr, r.twin, curr :: twin :: c :: r.reads, r.exit⟩

/-! ### Reverse sweep (the boundary-fallback `while (1)` loop, C lines
204-240) -/

/-- Why the reverse sweep stopped: top-of-loop `curr_idx == -1` check,
`prev == -1` (far boundary), `twin of prev == -1` (far boundary),
`curr_idx == orig_idx`, or fuel exhausted. -/
inductive RExit
  | sentinel
  | farPrev
  | farTwin
  | closedOrig
  | fuel
deriving DecidableEq

/-- Trace of one reverse sweep. `vis` holds pairs `(curr, prevEdge)`: the
visited half-edge together with the edge the walk stepped through (the C
`twin_edge`, which in this loop holds `halfedges[prev]` — both receive the
computed length). `i` is the C counter on exit. -/
structure RRes where
  vis : List (Idx × Idx)
  i : Nat
  reads : List Idx
  exit : RExit
deriving DecidableEq

/-- The reverse sweep. At every call `curr = (he twinE).twin` holds (the walk
reached `curr` through `twinE`, which is the `prev` of the previously visited
edge). `i` is incremented only when a full iteration completes, matching the
placement of `++i` after all three break checks in C. -/
def rev (he : Idx → HalfEdge) (orig : Idx) : Nat → Idx → Idx → Nat → RRes
  | 0, _, _, i => ⟨[], i, [], .fuel⟩
  | fuel + 1, curr, twinE, i =>
    if curr = -1 then ⟨[], i, [], .sentinel⟩
    else
      let p := (he curr).prev
      if p = -1 then ⟨[(curr, twinE)], i, [curr, twinE], .farPrev⟩
      else
        let c := (he p).twin
        if c = -1 then ⟨[(curr, twinE)], i, [curr, twinE, p], .farTwin⟩
        else if c = orig then ⟨[(curr, twinE)], i, [curr, twinE, p], .closedOrig⟩
        else
          let r := rev he orig fuel c p (i + 1)
          ⟨(curr, twinE) :: r.vis, r.i, curr :: twinE :: p :: r.reads, r.exit⟩

/-! ### The whole per-vertex traversal trace -/

/-- Complete topological trace of processing one vertex whose anchor is not
sentinel. `fallback` records whether the boundary-fallback branch (C line
180) was entered; `aborted` records whether the fallback entry hit a sentinel
`prev` or `twin` and took one of the two `continue` statements (C lines
194-199), in which case the epilogue (valence and normal writes) is skipped;
`iFinal` is the value of `i` reaching the epilogue (meaningless if
`aborted`). -/
structure VTrace where
  fwdRes : FRes
  fallback : Bool
  aborted : Bool
  revRes : Option RRes
  iFinal : Nat
deriving DecidableEq

/-- Build the full trace from anchor `orig`: forward sweep from `orig` with
`twin_idx = halfedges[orig].twin` and `i = 0`; then, if
`twin_idx == -1 && curr_idx != -1`, the fallback: restart at `orig`, step to
`prev` and its `twin` (aborting on a sentinel), increment `i` once (C line
202), and run the reverse sweep. -/
def vtrace (he : Idx → HalfEdge) (fuel : Nat) (orig : Idx) : VTrace :=
  let f := fwd he orig fuel orig ((he orig).twin) 0
  if f.twin = -1 ∧ f.curr ≠ -1 then
    let p := (he orig).prev
    if p = -1 then ⟨f, true, true, none, f.i⟩
    else
      let c := (he p).twin
      if c = -1 then ⟨f, true, true, none, f.i⟩
      else
        let r := rev he orig fuel c p (f.i + 1)
        ⟨f, true, false, some r, r.i⟩
  else ⟨f, false, false, none, f.i⟩

/-- Edges visited by the reverse sweep (first components of its trace). -/
def revEdges (t : VTrace) : List Idx :=
  match t.revRes with
  | none => []
  | some r => r.vis.map Prod.fst

/-- Edges the reverse sweep stepped through (second components: the `prev`
edges that also receive length writes). -/
def revPrevs (t : VTrace) : List Idx :=
  match t.revRes with
  | none => []
  | some r => r.vis.map Prod.snd

/-- The `(visited, stepped-through)` pairs of the reverse sweep. -/
def revPairs (t : VTrace) : List (Idx × Idx) :=
  match t.revRes with
  | none => []
  | some r => r.vis

/-! ### The `neighbors` array -/

/-- Record values into consecutive slots starting at `s`, writing only while
the slot index is below the capacity `N` (the C guard `i < NEIGHBORSIZE`);
slots keep advancing past the capacity without writing, exactly as `i` keeps
incrementing in C. -/
def fillFrom (N : Nat) : List Idx → Nat → List Idx → List Idx
  | l, _, [] => l
  | l, s, x :: xs => fillFrom N (if s < N then l.set s x else l) (s + 1) xs

/-- One adjacent swap `neighbors[k] <-> neighbors[k-1]` (C lines 186-188).
An access outside the list (possible in C when `i >= NEIGHBORSIZE`, which is
undefined behaviour there) is resolved as reading `-1` and dropping the
write. -/
def swapStep (l : List Idx) (k : Nat) : List Idx :=
  let a := l.getD k (-1)
  let b := l.getD (k - 1) (-1)
  (l.set k b).set (k - 1) a

/-- The C loop `for (k = i; k > 1; k--) swap(neighbors[k], neighbors[k-1])`
(lines 184-189). Note this chains adjacent swaps top-down, so it rotates the
segment `1..i` rather than reversing it. -/
def revLoop : List Idx → Nat → List Idx
  | l, 0 => l
  | l, 1 => l
  | l, k + 2 => revLoop (swapStep l (k + 2)) (k + 1)

/-- Modelled from the spec: "reverse the already-collected prefix
`neighbors[1..i]` in place (`neighbors[0]` — the anchor slot — stays fixed)".
Used only to compare the spec wording with what `revLoop` (the code) does. -/
def reversedMidSpec (l : List Idx) (i : Nat) : List Idx :=
  l.take 1 ++ ((l.drop 1).take i).reverse ++ l.drop (i + 1)

/-- The final contents of the processed vertex `neighbors` array: reset to
`-1`, filled by the forward sweep from slot 0; if the fallback was entered,
the collected prefix is permuted by `revLoop` with `k` starting at the
forward exit value of `i`, and the reverse sweep fills consecutive slots from
`i + 1` on. -/
def neighborsFinal (N : Nat) (t : VTrace) : List Idx :=
  let n1 := fillFrom N (List.replicate N (-1)) 0 t.fwdRes.vis
  if t.fallback then
    let n2 := revLoop n1 t.fwdRes.i
    match t.revRes with
    | none => n2
    | some r => fillFrom N n2 (t.fwdRes.i + 1) (r.vis.map Prod.fst)
  else n1

/-! ### Geometry: area-weighted normal accumulation and edge lengths -/

/-- The contribution of one visited half-edge to the running vertex normal:
`face[halfedge[a].face].normal * face[halfedge[a].face].area`
(C lines 149-152 and 212-215). -/
def faceWeight (m : Mesh) (a : Idx) : Vec3 :=
  vsmul ((m.faces ((m.halfedges a).face)).area) ((m.faces ((m.halfedges a).face)).normal)

/-- Accumulate face weights over a visit list whose first element lands in
slot `s`, adding a contribution only while the slot is below `N` (the
`i < NEIGHBORSIZE` guard around the accumulation in C). -/
def accumFrom (N : Nat) (m : Mesh) : Nat → List Idx → Vec3
  | _, [] => vzero
  | s, a :: as => vadd (if s < N then faceWeight m a else vzero) (accumFrom N m (s + 1) as)

/-- The full normal accumulator of one vertex traversal: forward sweep
contributions from slot 0, reverse sweep contributions from slot
`fwdRes.i + 1`. -/
def vertexAcc (N : Nat) (m : Mesh) (t : VTrace) : Vec3 :=
  vadd (accumFrom N m 0 t.fwdRes.vis) (accumFrom N m (t.fwdRes.i + 1) (revEdges t))

/-- The length value computed for a visited half-edge `a` while processing
vertex `v`: `norm(vertex[v].position - vertex[halfedge[a].vertex].position)`
(C lines 155-160). -/
def edgeLen (m : Mesh) (v : Idx) (a : Idx) : ℝ :=
  norm3 (vsub ((m.vertices v).position) ((m.vertices ((m.halfedges a).vertex)).position))

/-- All length writes of one vertex traversal, in program order. Forward
sweep: write `curr_edge->length`, then `twin_edge->length` when the twin is
present (C lines 161-164). Reverse sweep: write `curr_edge->length` and
`twin_edge->length` (the `prev` edge it stepped through, C lines 224-225). -/
def lengthWrites (m : Mesh) (v : Idx) (t : VTrace) : List (Idx × ℝ) :=
  (t.fwdRes.vis.flatMap fun a =>
    (a, edgeLen m v a) ::
      (if (m.halfedges a).twin = -1 then [] else [((m.halfedges a).twin, edgeLen m v a)]))
  ++ ((revPairs t).flatMap fun cp => [(cp.1, edgeLen m v cp.1), (cp.2, edgeLen m v cp.1)])

/-- Apply a list of `(index, value)` length writes left to right (later
writes win, matching memory semantics). -/
def applyWrites (he : Idx → HalfEdge) : List (Idx × ℝ) → (Idx → HalfEdge)
  | [] => he
  | (a, L) :: ws =>
    applyWrites (fun x => if x = a then { he x with length := L } else he x) ws

/-! ### The two public routines -/

/-- Process one vertex index of an `update_vertex_neighbors` batch (the body
of the `for (j ...)` loop, C lines 116-253). A `-1` index or a sentinel
anchor is skipped entirely; otherwise the neighbors array is rebuilt, the
visited edge lengths are written, and — unless the fallback entry aborted —
the valence and the normalized accumulated normal are stored. -/
def update_vertex_one (N fuel : Nat) (m : Mesh) (v : Idx) : Mesh :=
  if v = -1 then m
  else
    let orig := (m.vertices v).halfedge
    if orig = -1 then m
    else
      let t := vtrace m.halfedges fuel orig
      let he2 := applyWrites m.halfedges (lengthWrites m v t)
      let vr := m.vertices v
      let vr2 :=
        if t.aborted then { vr with neighbors := neighborsFinal N t }
        else
          let acc := vertexAcc N m t
          { vr with
              neighbors := neighborsFinal N t,
              valence := (t.iFinal : Int),
              normal := if norm3 acc > 0 then vdiv acc (norm3 acc) else vzero }
      { m with
          halfedges := he2,
          vertices := fun x => if x = v then vr2 else m.vertices x }

/-- Embeds the C routine `update_vertex_neighbors`: fold the per-vertex
update over the index batch. -/
def update_vertex_neighbors (N fuel : Nat) (idxs : List Idx) (m : Mesh) : Mesh :=
  idxs.foldl (update_vertex_one N fuel) m

/-- Process one face index of an `update_face_normals` batch (C lines
297-340): skip on sentinel face index, anchor half-edge, `prev` or `next`;
otherwise write `area = 0.5 * norm(cross(u, v))` and the normalized (or
zero) cross product. -/
def update_face_one (m : Mesh) (f : Idx) : Mesh :=
  if f = -1 then m
  else
    let h := (m.faces f).halfedge
    if h = -1 then m
    else
      let p := (m.halfedges h).prev
      if p = -1 then m
      else
        let nx := (m.halfedges h).next
        if nx = -1 then m
        else
          let c0 := (m.vertices ((m.halfedges h).vertex)).position
          let c1 := (m.vertices ((m.halfedges p).vertex)).position
          let c2 := (m.vertices ((m.halfedges nx).vertex)).position
          let n := cross (vsub c1 c0) (vsub c2 c0)
          let nn := norm3 n
          let fr :=
            { m.faces f with
                area := (1 / 2 : ℝ) * nn,
                normal := if nn > 0 then vdiv n nn else vzero }
          { m with faces := fun x => if x = f then fr else m.faces x }

/-- Embeds the C routine `update_face_normals`: fold the per-face update over
the index batch. -/
def update_face_normals (idxs : List Idx) (m : Mesh) : Mesh :=
  idxs.foldl update_face_one m

/-! ### Concrete meshes used as inputs for the concrete theorems -/

/-- Filler half-edge for indices the C program never creates. -/
def heNone : HalfEdge := ⟨-1, -1, -1, -1, -1, 0⟩

/-- Filler vertex. -/
def vNone : Vertex := ⟨vzero, vzero, -1, 0, []⟩

/-- Filler face. -/
def fNone : Face := ⟨-1, vzero, 0⟩

/-- An open fan of four triangles around vertex 0 (spokes to vertices 1-5).
Half-edges `9, 6, 3, 0` are the spokes out of vertex 0; the anchor is 9, so
the forward sweep collects `[9, 6, 3, 0]` and stops on the missing twin of
edge 0 with `i = 3`; the fallback entry then aborts because the twin of
`prev(9) = 11` is missing. Fields: vertex, twin, next, prev, face, length. -/
def fanHE : Idx → HalfEdge := fun i =>
  if i = 0 then ⟨1, -1, 1, 2, 0, 0⟩
  else if i = 1 then ⟨2, -1, 2, 0, 0, 0⟩
  else if i = 2 then ⟨0, 3, 0, 1, 0, 0⟩
  else if i = 3 then ⟨2, 2, 4, 5, 1, 0⟩
  else if i = 4 then ⟨3, -1, 5, 3, 1, 0⟩
  else if i = 5 then ⟨0, 6, 3, 4, 1, 0⟩
  else if i = 6 then ⟨3, 5, 7, 8, 2, 0⟩
  else if i = 7 then ⟨4, -1, 8, 6, 2, 0⟩
  else if i = 8 then ⟨0, 9, 6, 7, 2, 0⟩
  else if i = 9 then ⟨4, 8, 10, 11, 3, 0⟩
  else if i = 10 then ⟨5, -1, 11, 9, 3, 0⟩
  else if i = 11 then ⟨0, -1, 9, 10, 3, 0⟩
  else heNone

def fanV : Idx → Vertex := fun i =>
  if i = 0 then ⟨⟨0, 0, 0⟩, ⟨9, 9, 9⟩, 9, -7, [-1, -1, -1, -1, -1, -1]⟩
  else if i = 1 then ⟨⟨1, 0, 0⟩, vzero, -1, 0, []⟩
  else if i = 2 then ⟨⟨0, 1, 0⟩, vzero, -1, 0, []⟩
  else if i = 3 then ⟨⟨-1, 0, 0⟩, vzero, -1, 0, []⟩
  else if i = 4 then ⟨⟨0, -1, 0⟩, vzero, -1, 0, []⟩
  else if i = 5 then ⟨⟨1, 1, 0⟩, vzero, -1, 0, []⟩
  else vNone

def fanF : Idx → Face := fun i =>
  if i = 0 then ⟨0, vzero, 0⟩
  else if i = 1 then ⟨3, vzero, 0⟩
  else if i = 2 then ⟨6, vzero, 0⟩
  else if i = 3 then ⟨9, vzero, 0⟩
  else fNone

def fanMesh : Mesh := ⟨fanHE, fanV, fanF⟩

/-- A mesh with a broken `next` link: half-edge 0 (out of vertex 0) has twin
1, and `halfedges[1].next = -1`. The forward sweep advance then sets
`curr_idx = -1` and dereferences `halfedges[-1]` (to reload `twin_idx`)
before the top-of-loop sentinel check. -/
def brokenHE : Idx → HalfEdge := fun i =>
  if i = 0 then ⟨1, 1, 2, 2, 0, 0⟩
  else if i = 1 then ⟨0, 0, -1, -1, 0, 0⟩
  else if i = 2 then ⟨0, -1, 0, 0, 0, 0⟩
  else heNone

def brokenV : Idx → Vertex := fun i =>
  if i = 0 then ⟨⟨0, 0, 0⟩, ⟨9, 9, 9⟩, 0, -7, [-1, -1, -1, -1, -1, -1]⟩
  else if i = 1 then ⟨⟨1, 0, 0⟩, vzero, -1, 0, []⟩
  else vNone

def brokenF : Idx → Face := fun i =>
  if i = 0 then ⟨0, vzero, 0⟩ else fNone

def brokenMesh : Mesh := ⟨brokenHE, brokenV, brokenF⟩

/-- The single triangle of the spec scenario: vertices `A = 0` at `(0,0,0)`,
`B = 1` at `(1,0,0)`, `C = 2` at `(0,1,0)`; one face; three half-edges
`0: A→C`, `1: C→B`, `2: B→A`, all without twins (this winding makes the face
normal come out `(0,0,1)`). Vertex `A` starts with marker values
`valence = -7` and `normal = (9,9,9)` so that untouched fields are
observable. -/
def triHE : Idx → HalfEdge := fun i =>
  if i = 0 then ⟨2, -1, 1, 2, 0, 0⟩
  else if i = 1 then ⟨1, -1, 2, 0, 0, 0⟩
  else if i = 2 then ⟨0, -1, 0, 1, 0, 0⟩
  else heNone

def triV : Idx → Vertex := fun i =>
  if i = 0 then ⟨⟨0, 0, 0⟩, ⟨9, 9, 9⟩, 0, -7, [-1, -1, -1, -1, -1, -1]⟩
  else if i = 1 then ⟨⟨1, 0, 0⟩, vzero, -1, 0, []⟩
  else if i = 2 then ⟨⟨0, 1, 0⟩, vzero, -1, 0, []⟩
  else vNone

def triF : Idx → Face := fun i =>
  if i = 0 then ⟨0, vzero, 0⟩ else fNone

def triMesh : Mesh := ⟨triHE, triV, triF⟩

/-! ### Frame lemmas for the per-entity updates -/

lemma update_face_one_halfedges (m : Mesh) (f : Idx) :
    (update_face_one m f).halfedges = m.halfedges := by
  unfold update_face_one
  simp only []
  repeat' split
  all_goals rfl

lemma update_face_one_vertices (m : Mesh) (f : Idx) :
    (update_face_one m f).vertices = m.vertices := by
  unfold update_face_one
  simp only []
  repeat' split
  all_goals rfl

lemma update_face_one_faces_other (m : Mesh) (f x : Idx) (hx : x ≠ f) :
    (update_face_one m f).faces x = m.faces x := by
  unfold update_face_one
  simp only []
  repeat' split
  all_goals simp [hx]

lemma update_vertex_one_faces (N fuel : Nat) (m : Mesh) (v : Idx) :
    (update_vertex_one N fuel m v).faces = m.faces := by
  unfold update_vertex_one
  simp only []
  repeat' split
  all_goals rfl

lemma update_vertex_one_vertices_other (N fuel : Nat) (m : Mesh) (v x : Idx) (hx : x ≠ v) :
    (update_vertex_one N fuel m v).vertices x = m.vertices x := by
  unfold update_vertex_one
  simp only []
  repeat' split
  all_goals simp [hx]

/-- The corner `c0` of a face: position of the vertex its anchor half-edge
points to (C line 316 with 320-321). -/
def faceCorner0 (m : Mesh) (f : Idx) : Vec3 :=
  (m.vertices ((m.halfedges ((m.faces f).halfedge)).vertex)).position

/-- The corner `c1`: position of the vertex the `prev` half-edge points to. -/
def faceCorner1 (m : Mesh) (f : Idx) : Vec3 :=
  (m.vertices ((m.halfedges ((m.halfedges ((m.faces f).halfedge)).prev)).vertex)).position

/-- The corner `c2`: position of the vertex the `next` half-edge points to. -/
def faceCorner2 (m : Mesh) (f : Idx) : Vec3 :=
  (m.vertices ((m.halfedges ((m.halfedges ((m.faces f).halfedge)).next)).vertex)).position

/-- The cross product `n = cross(c1 - c0, c2 - c0)` of a face, written as the
spec describes it. -/
def faceCrossVec (m : Mesh) (f : Idx) : Vec3 :=
  cross (vsub (faceCorner1 m f) (faceCorner0 m f)) (vsub (faceCorner2 m f) (faceCorner0 m f))

/-- What `update_face_one` stores for a face that passes all four sentinel
guards. -/
lemma update_face_one_spec (m : Mesh) (f : Idx) (hf : f ≠ -1)
    (hh : (m.faces f).halfedge ≠ -1)
    (hp : (m.halfedges ((m.faces f).halfedge)).prev ≠ -1)
    (hn : (m.halfedges ((m.faces f).halfedge)).next ≠ -1) :
    (update_face_one m f).faces f =
      { m.faces f with
          area := (1 / 2 : ℝ) * norm3 (faceCrossVec m f),
          normal :=
            if norm3 (faceCrossVec m f) > 0 then
              vdiv (faceCrossVec m f) (norm3 (faceCrossVec m f))
            else vzero } := by
  unfold update_face_one
  rw [if_neg hf, if_neg hh, if_neg hp, if_neg hn]
  simp [faceCrossVec, faceCorner0, faceCorner1, faceCorner2]

/-! ### C1 -/

/-- C1: false of the code — the loop `for (k = i; k > 1; k--)` that the spec
(and the comment in the C source) describes as reversing the collected prefix
`neighbors[1..i]` actually rotates it: on the open fan, the forward-collected
array `[9, 6, 3, 0, -1, -1]` with `i = 3` becomes `[9, 0, 6, 3, -1, -1]`
(the last-collected edge moves to slot 1 and the rest shift right), whereas
reversing positions 1 through 3 would give `[9, 0, 3, 6, -1, -1]`. -/
theorem C1_rotation_not_reversal :
    ((update_vertex_one 6 20 fanMesh 0).vertices 0).neighbors = [9, 0, 6, 3, -1, -1] ∧
    revLoop [9, 6, 3, 0, -1, -1] 3 = [9, 0, 6, 3, -1, -1] ∧
    reversedMidSpec [9, 6, 3, 0, -1, -1] 3 = [9, 0, 3, 6, -1, -1] ∧
    ([9, 0, 6, 3, -1, -1] : List Idx) ≠ [9, 0, 3, 6, -1, -1] := by
  refine ⟨?_, by decide, by decide, by decide⟩
  decide

/-! ### C2 -/

lemma tri_cross : faceCrossVec triMesh 0 = ⟨0, 0, 1⟩ := by
  simp only [faceCrossVec, faceCorner0, faceCorner1, faceCorner2, triMesh, triHE, triV, triF,
    cross, vsub]
  norm_num

lemma tri_norm : norm3 (⟨0, 0, 1⟩ : Vec3) = 1 := by
  simp only [norm3]
  norm_num

/-- C2, counterexample: on the spec scenario mesh, `update_face_normals([0])`
followed by `update_vertex_neighbors([A])` does not set `A.valence = 1`: the
boundary fallback entry hits the missing twin of `prev(anchor)` and takes the
`continue`, so the marker value `-7` survives. -/
theorem C2_counterexample :
    ((update_vertex_neighbors 6 20 [0] (update_face_normals [0] triMesh)).vertices 0).valence
        = -7 ∧
    (-7 : Int) ≠ 1 := by
  exact ⟨by decide, by decide⟩

/-- C2, amended: on the single triangle, `update_face_normals([0])` does set
the face normal to `(0,0,1)` and the area to `0.5`, and
`update_vertex_neighbors([A])` records `neighbors[0] =` the half-edge leaving
`A` (all other slots sentinel); but because the fallback entry aborts on the
missing twin of `prev(anchor)`, the valence and the vertex normal keep their
prior values instead of becoming `1` and `(0,0,1)`. -/
theorem C2_amended :
    ((update_face_normals [0] triMesh).faces 0).normal = ⟨0, 0, 1⟩ ∧
    ((update_face_normals [0] triMesh).faces 0).area = 1 / 2 ∧
    ((update_vertex_neighbors 6 20 [0] (update_face_normals [0] triMesh)).vertices 0).neighbors
        = [0, -1, -1, -1, -1, -1] ∧
    ((update_vertex_neighbors 6 20 [0] (update_face_normals [0] triMesh)).vertices 0).valence
        = -7 ∧
    ((update_vertex_neighbors 6 20 [0] (update_face_normals [0] triMesh)).vertices 0).normal
        = ⟨9, 9, 9⟩ := by
  have hspec := update_face_one_spec triMesh 0 (by decide) (by decide) (by decide) (by decide)
  have hface : (update_face_normals [0] triMesh).faces 0 = (update_face_one triMesh 0).faces 0 :=
    rfl
  refine ⟨?_, ?_, by decide, by decide, rfl⟩
  · rw [hface, hspec]
    show (if norm3 (faceCrossVec triMesh 0) > 0 then
            vdiv (faceCrossVec triMesh 0) (norm3 (faceCrossVec triMesh 0))
          else vzero) = _
    rw [tri_cross, tri_norm, if_pos (by norm_num : (1 : ℝ) > 0)]
    simp [vdiv]
  · rw [hface, hspec]
    show (1 / 2 : ℝ) * norm3 (faceCrossVec triMesh 0) = 1 / 2
    rw [tri_cross, tri_norm, mul_one]

/-! ### C3 (counterexample; the amended theorem appears further below) -/

/-- C3, counterexample: vertex `A` of the single triangle is processed (its
anchor is not sentinel), and the traversal takes `iFinal = 0` ring steps, yet
`update_vertex_neighbors` never writes `valence`: the `continue` at the
fallback entry skips the epilogue and the marker value `-7` survives. -/
theorem C3_counterexample :
    ((update_vertex_neighbors 6 20 [0] triMesh).vertices 0).valence = -7 ∧
    (-7 : Int) ≠
      ((vtrace triMesh.halfedges 20 ((triMesh.vertices 0).halfedge)).iFinal : Int) := by
  exact ⟨by decide, by decide⟩

/-! ### C7 -/

/-- C7: for every non-sentinel face index whose anchor half-edge, `prev` and
`next` links are all present, `update_face_normals` stores
`area = 0.5 * norm(cross(c1 - c0, c2 - c0))` and the normalized cross product
(or the zero vector when the cross product has zero norm), where `c0, c1, c2`
are the positions of the vertices pointed to by the anchor, its `prev` and
its `next`. -/
theorem C7_face_formula (m : Mesh) (f : Idx) (hf : f ≠ -1)
    (hh : (m.faces f).halfedge ≠ -1)
    (hp : (m.halfedges ((m.faces f).halfedge)).prev ≠ -1)
    (hn : (m.halfedges ((m.faces f).halfedge)).next ≠ -1) :
    ((update_face_one m f).faces f).area = (1 / 2 : ℝ) * norm3 (faceCrossVec m f) ∧
    ((update_face_one m f).faces f).normal =
      (if norm3 (faceCrossVec m f) > 0 then
         vdiv (faceCrossVec m f) (norm3 (faceCrossVec m f))
       else vzero) := by
  rw [update_face_one_spec m f hf hh hp hn]
  exact ⟨rfl, rfl⟩

/-- Witness for C7 at the concrete single-triangle mesh. -/
theorem C7_witness :
    ((0 : Idx) ≠ -1 ∧ (triMesh.faces 0).halfedge ≠ -1 ∧
      (triMesh.halfedges ((triMesh.faces 0).halfedge)).prev ≠ -1 ∧
      (triMesh.halfedges ((triMesh.faces 0).halfedge)).next ≠ -1) ∧
    (((update_face_one triMesh 0).faces 0).area = (1 / 2 : ℝ) * norm3 (faceCrossVec triMesh 0) ∧
      ((update_face_one triMesh 0).faces 0).normal =
        (if norm3 (faceCrossVec triMesh 0) > 0 then
           vdiv (faceCrossVec triMesh 0) (norm3 (faceCrossVec triMesh 0))
         else vzero)) :=
  ⟨⟨by decide, by decide, by decide, by decide⟩,
    C7_face_formula triMesh 0 (by decide) (by decide) (by decide) (by decide)⟩

/-! ### C4 -/

/-- C4: false of the code — on the mesh whose anchor edge has a twin whose
`next` link is missing, the traversal dereferences `halfedges[-1]` (the
sentinel index appears in the read trace: an out-of-range access), and the
vertex update is not skipped: the epilogue still runs and writes
`valence = 1`. -/
theorem C4_missing_next_not_skipped :
    -1 ∈ (vtrace brokenMesh.halfedges 10 0).fwdRes.reads ∧
    ((update_vertex_one 6 10 brokenMesh 0).vertices 0).valence = 1 ∧
    ((update_vertex_one 6 10 brokenMesh 0).vertices 0).neighbors = [0, -1, -1, -1, -1, -1] := by
  refine ⟨by decide, ?_, ?_⟩ <;> decide

/-! ### C9 -/

lemma update_vertex_one_isolated (N fuel : Nat) (m : Mesh) (u v : Idx)
    (hv : (m.vertices v).halfedge = -1) :
    (update_vertex_one N fuel m u).vertices v = m.vertices v := by
  by_cases huv : v = u
  · subst huv
    unfold update_vertex_one
    simp only []
    split <;> simp [hv]
  · exact update_vertex_one_vertices_other N fuel m u v huv

lemma update_vertex_neighbors_isolated (N fuel : Nat) (idxs : List Idx) (m : Mesh) (v : Idx)
    (hv : (m.vertices v).halfedge = -1) :
    (update_vertex_neighbors N fuel idxs m).vertices v = m.vertices v := by
  induction idxs generalizing m with
  | nil => rfl
  | cons a as ih =>
    have hstep := update_vertex_one_isolated N fuel m a v hv
    have hv2 : ((update_vertex_one N fuel m a).vertices v).halfedge = -1 := by
      rw [hstep]; exact hv
    show (update_vertex_neighbors N fuel as (update_vertex_one N fuel m a)).vertices v = _
    rw [ih (update_vertex_one N fuel m a) hv2, hstep]

lemma update_face_normals_vertices (idxs : List Idx) (m : Mesh) :
    (update_face_normals idxs m).vertices = m.vertices := by
  induction idxs generalizing m with
  | nil => rfl
  | cons a as ih =>
    show (update_face_normals as (update_face_one m a)).vertices = _
    rw [ih (update_face_one m a), update_face_one_vertices]

/-- C9: a vertex whose half-edge anchor is sentinel (isolated vertex) is left
with exactly its prior `neighbors`, `valence` and `normal` (indeed its whole
record) by any `update_vertex_neighbors` batch and any `update_face_normals`
batch. -/
theorem C9_isolated_untouched (N fuel : Nat) (vIdxs fIdxs : List Idx) (m : Mesh) (v : Idx)
    (hv : (m.vertices v).halfedge = -1) :
    (update_vertex_neighbors N fuel vIdxs m).vertices v = m.vertices v ∧
    (update_face_normals fIdxs m).vertices v = m.vertices v :=
  ⟨update_vertex_neighbors_isolated N fuel vIdxs m v hv,
    by rw [update_face_normals_vertices]⟩

/-- A mesh whose only vertex is isolated (`halfedge = -1`), with marker
values in every derived field. -/
def isoV : Idx → Vertex := fun i =>
  if i = 0 then ⟨⟨5, 5, 5⟩, ⟨1, 2, 3⟩, -1, 42, [7, 7]⟩ else vNone

def isoMesh : Mesh := ⟨fun _ => heNone, isoV, fun _ => fNone⟩

/-- Witness for C9 at the concrete isolated vertex. -/
theorem C9_witness :
    (isoMesh.vertices 0).halfedge = -1 ∧
    ((update_vertex_neighbors 4 9 [0] isoMesh).vertices 0 = isoMesh.vertices 0 ∧
      (update_face_normals [0] isoMesh).vertices 0 = isoMesh.vertices 0) :=
  ⟨by decide, C9_isolated_untouched 4 9 [0] [0] isoMesh 0 (by decide)⟩

/-! ### The bowtie mesh: two closed three-triangle fans ("cones") sharing the
apex vertex 0. All the spec section 3 invariants hold (`next`/`prev` cycle in
three steps, `twin` is an involution where present, spokes are interior
edges), yet the vertex 0 ring walk — anchored in the first cone — never
reaches the second cone. Half-edge 9 (`0 → 4`) is an interior edge with twin
17. All lengths start at the marker 99. -/

def bowHE : Idx → HalfEdge := fun i =>
  if i = 0 then ⟨1, 8, 1, 2, 0, 99⟩
  else if i = 1 then ⟨2, -1, 2, 0, 0, 99⟩
  else if i = 2 then ⟨0, 3, 0, 1, 0, 99⟩
  else if i = 3 then ⟨2, 2, 4, 5, 1, 99⟩
  else if i = 4 then ⟨3, -1, 5, 3, 1, 99⟩
  else if i = 5 then ⟨0, 6, 3, 4, 1, 99⟩
  else if i = 6 then ⟨3, 5, 7, 8, 2, 99⟩
  else if i = 7 then ⟨1, -1, 8, 6, 2, 99⟩
  else if i = 8 then ⟨0, 0, 6, 7, 2, 99⟩
  else if i = 9 then ⟨4, 17, 10, 11, 3, 99⟩
  else if i = 10 then ⟨5, -1, 11, 9, 3, 99⟩
  else if i = 11 then ⟨0, 12, 9, 10, 3, 99⟩
  else if i = 12 then ⟨5, 11, 13, 14, 4, 99⟩
  else if i = 13 then ⟨6, -1, 14, 12, 4, 99⟩
  else if i = 14 then ⟨0, 15, 12, 13, 4, 99⟩
  else if i = 15 then ⟨6, 14, 16, 17, 5, 99⟩
  else if i = 16 then ⟨4, -1, 17, 15, 5, 99⟩
  else if i = 17 then ⟨0, 9, 15, 16, 5, 99⟩
  else heNone

def bowV : Idx → Vertex := fun i =>
  if i = 0 then ⟨⟨0, 0, 0⟩, vzero, 0, -3, [-1, -1, -1, -1, -1, -1, -1, -1]⟩
  else if i = 1 then ⟨⟨1, 0, 0⟩, vzero, -1, 0, []⟩
  else if i = 2 then ⟨⟨0, 1, 0⟩, vzero, -1, 0, []⟩
  else if i = 3 then ⟨⟨0, 0, 1⟩, vzero, -1, 0, []⟩
  else if i = 4 then ⟨⟨2, 0, 0⟩, vzero, -1, 0, []⟩
  else if i = 5 then ⟨⟨0, 2, 0⟩, vzero, -1, 0, []⟩
  else if i = 6 then ⟨⟨0, 0, 2⟩, vzero, -1, 0, []⟩
  else vNone

def bowF : Idx → Face := fun i =>
  if i = 0 then ⟨0, vzero, 0⟩
  else if i = 1 then ⟨3, vzero, 0⟩
  else if i = 2 then ⟨6, vzero, 0⟩
  else if i = 3 then ⟨9, vzero, 0⟩
  else if i = 4 then ⟨12, vzero, 0⟩
  else if i = 5 then ⟨15, vzero, 0⟩
  else fNone

def bowtie : Mesh := ⟨bowHE, bowV, bowF⟩

/-! ### C6 (counterexample; the amended theorem appears further below) -/

/-- C6, counterexample: half-edge 9 of the bowtie is an interior edge
(twin 17, twin of twin 9) and vertex 0 is one of its endpoints, yet after the
batch `update_vertex_neighbors([0])` its length is still the marker 99, not
the Euclidean distance 2 between its endpoint positions: the ring walk
anchored at half-edge 0 never visits it. -/
theorem C6_counterexample :
    (bowtie.halfedges 9).twin = 17 ∧ (bowtie.halfedges 17).twin = 9 ∧
    ((update_vertex_neighbors 8 20 [0] bowtie).halfedges 9).length = 99 ∧
    norm3 (vsub ((bowtie.vertices 0).position)
        ((bowtie.vertices ((bowtie.halfedges 9).vertex)).position)) = 2 ∧
    (99 : ℝ) ≠ 2 := by
  refine ⟨by decide, by decide, rfl, ?_, by norm_num⟩
  show norm3 (vsub ⟨0, 0, 0⟩ ⟨2, 0, 0⟩) = 2
  simp only [norm3, vsub]
  rw [show ((0 : ℝ) - 2) * ((0 : ℝ) - 2) + ((0 : ℝ) - 0) * ((0 : ℝ) - 0) +
        ((0 : ℝ) - 0) * ((0 : ℝ) - 0) = 2 ^ 2 by norm_num]
  exact Real.sqrt_sq (by norm_num)

/-! ### C5: closed interior rings -/

/-- One advance of the forward sweep: `curr_idx = twin_edge->next` where
`twin_edge = halfedges[halfedges[curr].twin]`. -/
def ringStep (he : Idx → HalfEdge) (a : Idx) : Idx := (he ((he a).twin)).next

lemma vtrace_fwdRes (he : Idx → HalfEdge) (fuel : Nat) (orig : Idx) :
    (vtrace he fuel orig).fwdRes = fwd he orig fuel orig ((he orig).twin) 0 := by
  unfold vtrace
  simp only []
  repeat' split
  all_goals rfl

lemma vtrace_no_fallback (he : Idx → HalfEdge) (fuel : Nat) (orig : Idx)
    (h : ¬((fwd he orig fuel orig ((he orig).twin) 0).twin = -1 ∧
        (fwd he orig fuel orig ((he orig).twin) 0).curr ≠ -1)) :
    vtrace he fuel orig =
      ⟨fwd he orig fuel orig ((he orig).twin) 0, false, false, none,
        (fwd he orig fuel orig ((he orig).twin) 0).i⟩ := by
  unfold vtrace
  simp only []
  rw [if_neg h]

lemma update_vertex_one_vertex_self (N fuel : Nat) (m : Mesh) (v : Idx) (hv : v ≠ -1)
    (ho : (m.vertices v).halfedge ≠ -1) :
    (update_vertex_one N fuel m v).vertices v =
      (if (vtrace m.halfedges fuel ((m.vertices v).halfedge)).aborted then
        { m.vertices v with
            neighbors := neighborsFinal N (vtrace m.halfedges fuel ((m.vertices v).halfedge)) }
      else
        { m.vertices v with
            neighbors := neighborsFinal N (vtrace m.halfedges fuel ((m.vertices v).halfedge)),
            valence := ((vtrace m.halfedges fuel ((m.vertices v).halfedge)).iFinal : Int),
            normal :=
              if norm3 (vertexAcc N m (vtrace m.halfedges fuel ((m.vertices v).halfedge))) > 0
              then
                vdiv (vertexAcc N m (vtrace m.halfedges fuel ((m.vertices v).halfedge)))
                  (norm3 (vertexAcc N m (vtrace m.halfedges fuel ((m.vertices v).halfedge))))
              else vzero }) := by
  unfold update_vertex_one
  rw [if_neg hv]
  try simp only []
  rw [if_neg ho]
  simp

lemma update_vertex_one_halfedges_self (N fuel : Nat) (m : Mesh) (v : Idx) (hv : v ≠ -1)
    (ho : (m.vertices v).halfedge ≠ -1) :
    (update_vertex_one N fuel m v).halfedges =
      applyWrites m.halfedges
        (lengthWrites m v (vtrace m.halfedges fuel ((m.vertices v).halfedge))) := by
  unfold update_vertex_one
  rw [if_neg hv]
  try simp only []
  rw [if_neg ho]

lemma iterate_cons_range {α : Type} (g : α → α) (x : α) (j d : Nat) :
    g^[j] x :: (List.range (d + 1)).map (fun q => g^[j + 1 + q] x)
      = (List.range (d + 1 + 1)).map (fun q => g^[j + q] x) := by
  conv_rhs => rw [List.range_succ_eq_map, List.map_cons, List.map_map]
  congr 1
  refine List.map_congr_left fun q _ => ?_
  show g^[j + 1 + q] x = g^[j + Nat.succ q] x
  rw [show j + 1 + q = j + Nat.succ q by omega]

/-- The forward sweep on a closed ring: starting `d + 1` advances before the
ring closes, it visits exactly the remaining ring edges, exits with
`.closed`, and returns to the anchor. -/
lemma fwd_ring_aux (he : Idx → HalfEdge) (orig : Idx) (n : Nat)
    (hiter : (ringStep he)^[n] orig = orig)
    (hne : ∀ j, j < n → (ringStep he)^[j] orig ≠ -1)
    (htwin : ∀ j, j < n → (he ((ringStep he)^[j] orig)).twin ≠ -1)
    (hinj : ∀ j, j < n → ∀ k, k < n →
      (ringStep he)^[j] orig = (ringStep he)^[k] orig → j = k) :
    ∀ d j, j + (d + 1) = n → ∀ fuel, d + 1 ≤ fuel → ∀ i0,
      (fwd he orig fuel ((ringStep he)^[j] orig) ((he ((ringStep he)^[j] orig)).twin) i0).exit
          = .closed ∧
      (fwd he orig fuel ((ringStep he)^[j] orig) ((he ((ringStep he)^[j] orig)).twin) i0).vis
          = (List.range (d + 1)).map (fun q => (ringStep he)^[j + q] orig) ∧
      (fwd he orig fuel ((ringStep he)^[j] orig) ((he ((ringStep he)^[j] orig)).twin) i0).i
          = i0 + (d + 1) ∧
      (fwd he orig fuel ((ringStep he)^[j] orig) ((he ((ringStep he)^[j] orig)).twin) i0).curr
          = orig ∧
      (fwd he orig fuel ((ringStep he)^[j] orig) ((he ((ringStep he)^[j] orig)).twin) i0).twin
          = (he orig).twin := by
  intro d
  induction d with
  | zero =>
    intro j hj fuel hfuel i0
    obtain ⟨f, rfl⟩ : ∃ f, fuel = f + 1 := ⟨fuel - 1, by omega⟩
    have hcur : (ringStep he)^[j] orig ≠ -1 := hne j (by omega)
    have htw : (he ((ringStep he)^[j] orig)).twin ≠ -1 := htwin j (by omega)
    have hc : (he ((he ((ringStep he)^[j] orig)).twin)).next = orig := by
      have h1 : (ringStep he)^[j + 1] orig = orig := by rw [hj]; exact hiter
      rw [Function.iterate_succ_apply'] at h1
      exact h1
    simp only [fwd]
    rw [if_neg hcur, if_neg htw]
    try simp only []
    rw [hc, if_pos rfl]
    refine ⟨rfl, ?_, rfl, rfl, rfl⟩
    simp [List.range_succ]

  | succ d ih =>
    intro j hj fuel hfuel i0
    obtain ⟨f, rfl⟩ : ∃ f, fuel = f + 1 := ⟨fuel - 1, by omega⟩
    have hcur : (ringStep he)^[j] orig ≠ -1 := hne j (by omega)
    have htw : (he ((ringStep he)^[j] orig)).twin ≠ -1 := htwin j (by omega)
    have hc : (he ((he ((ringStep he)^[j] orig)).twin)).next = (ringStep he)^[j + 1] orig := by
      rw [Function.iterate_succ_apply']
      rfl
    have hno : (ringStep he)^[j + 1] orig ≠ orig := by
      intro h
      have h0 : (ringStep he)^[0] orig = orig := rfl
      have := hinj (j + 1) (by omega) 0 (by omega) (h.trans h0.symm)
      omega
    have hIH := ih (j + 1) (by omega) f (by omega) (i0 + 1)
    simp only [fwd]
    rw [if_neg hcur, if_neg htw]
    try simp only []
    rw [hc, if_neg hno]
    try dsimp only
    refine ⟨hIH.1, ?_, ?_, hIH.2.2.2.1, hIH.2.2.2.2⟩
    · rw [hIH.2.1]
      exact iterate_cons_range (ringStep he) orig j d
    · rw [hIH.2.2.1]
      omega

/-- C5: for a vertex whose ring is closed (the `twin`-then-`next` orbit of
its anchor returns to the anchor after `n` distinct non-sentinel steps, each
with a twin, and all incident faces exist), the forward sweep visits exactly
those `n` distinct half-edges, terminates by returning to the anchor with a
`.closed` exit, the boundary fallback is never entered, and the stored
valence is `n`. -/
theorem C5_interior_closed_ring (N fuel n : Nat) (m : Mesh) (v : Idx)
    (hv : v ≠ -1) (hn : 0 < n) (hfuel : n ≤ fuel)
    (ho : (m.vertices v).halfedge ≠ -1)
    (hiter : (ringStep m.halfedges)^[n] ((m.vertices v).halfedge) = (m.vertices v).halfedge)
    (hne : ∀ j, j < n → (ringStep m.halfedges)^[j] ((m.vertices v).halfedge) ≠ -1)
    (htwin : ∀ j, j < n →
      (m.halfedges ((ringStep m.halfedges)^[j] ((m.vertices v).halfedge))).twin ≠ -1)
    (hface : ∀ j, j < n →
      (m.halfedges ((ringStep m.halfedges)^[j] ((m.vertices v).halfedge))).face ≠ -1)
    (hinj : ∀ j, j < n → ∀ k, k < n →
      (ringStep m.halfedges)^[j] ((m.vertices v).halfedge)
          = (ringStep m.halfedges)^[k] ((m.vertices v).halfedge) → j = k) :
    (vtrace m.halfedges fuel ((m.vertices v).halfedge)).fwdRes.exit = .closed ∧
    (vtrace m.halfedges fuel ((m.vertices v).halfedge)).fwdRes.vis
        = (List.range n).map (fun q => (ringStep m.halfedges)^[q] ((m.vertices v).halfedge)) ∧
    (vtrace m.halfedges fuel ((m.vertices v).halfedge)).fwdRes.vis.length = n ∧
    (vtrace m.halfedges fuel ((m.vertices v).halfedge)).fwdRes.vis.Nodup ∧
    (vtrace m.halfedges fuel ((m.vertices v).halfedge)).fwdRes.curr
        = (m.vertices v).halfedge ∧
    (vtrace m.halfedges fuel ((m.vertices v).halfedge)).fallback = false ∧
    (vtrace m.halfedges fuel ((m.vertices v).halfedge)).aborted = false ∧
    ((update_vertex_one N fuel m v).vertices v).valence = (n : Int) := by
  set orig := (m.vertices v).halfedge with horig
  obtain ⟨d, rfl⟩ : ∃ d, n = d + 1 := ⟨n - 1, by omega⟩
  have hmain := fwd_ring_aux m.halfedges orig (d + 1) hiter hne htwin hinj d 0
    (by omega) fuel (by omega) 0
  rw [show (ringStep m.halfedges)^[0] orig = orig from rfl] at hmain
  have hgate : ¬((fwd m.halfedges orig fuel orig ((m.halfedges orig).twin) 0).twin = -1 ∧
      (fwd m.halfedges orig fuel orig ((m.halfedges orig).twin) 0).curr ≠ -1) := by
    rw [hmain.2.2.2.2]
    intro hcon
    exact htwin 0 (by omega) hcon.1
  have hvt := vtrace_no_fallback m.halfedges fuel orig hgate
  have hvis : (vtrace m.halfedges fuel orig).fwdRes.vis
      = (List.range (d + 1)).map (fun q => (ringStep m.halfedges)^[q] orig) := by
    rw [hvt]
    simp only []
    rw [hmain.2.1]
    exact List.map_congr_left fun q _ => by rw [Nat.zero_add]
  refine ⟨by rw [hvt]; exact hmain.1, hvis, ?_, ?_, by rw [hvt]; exact hmain.2.2.2.1,
    by rw [hvt], by rw [hvt], ?_⟩
  · rw [hvis]
    simp
  · rw [hvis]
    refine List.Nodup.map_on ?_ (List.nodup_range _)
    intro x hx y hy hxy
    exact hinj x (List.mem_range.mp hx) y (List.mem_range.mp hy) hxy
  · rw [update_vertex_one_vertex_self N fuel m v hv ho, ← horig, hvt]
    try simp only []
    rw [hmain.2.2.1]
    simp

/-- Witness for C5: the apex of the first cone of the bowtie has the closed
ring `0 → 6 → 3 → 0` of three spokes. -/
theorem C5_witness :
    ((0 : Idx) ≠ -1 ∧ 0 < 3 ∧ 3 ≤ 20 ∧ (bowtie.vertices 0).halfedge ≠ -1 ∧
      (ringStep bowtie.halfedges)^[3] ((bowtie.vertices 0).halfedge)
          = (bowtie.vertices 0).halfedge ∧
      (∀ j, j < 3 → (ringStep bowtie.halfedges)^[j] ((bowtie.vertices 0).halfedge) ≠ -1) ∧
      (∀ j, j < 3 →
        (bowtie.halfedges ((ringStep bowtie.halfedges)^[j] ((bowtie.vertices 0).halfedge))).twin
            ≠ -1) ∧
      (∀ j, j < 3 →
        (bowtie.halfedges ((ringStep bowtie.halfedges)^[j] ((bowtie.vertices 0).halfedge))).face
            ≠ -1) ∧
      (∀ j, j < 3 → ∀ k, k < 3 →
        (ringStep bowtie.halfedges)^[j] ((bowtie.vertices 0).halfedge)
            = (ringStep bowtie.halfedges)^[k] ((bowtie.vertices 0).halfedge) → j = k)) ∧
    ((vtrace bowtie.halfedges 20 ((bowtie.vertices 0).halfedge)).fwdRes.exit = .closed ∧
      (vtrace bowtie.halfedges 20 ((bowtie.vertices 0).halfedge)).fwdRes.vis
          = (List.range 3).map
              (fun q => (ringStep bowtie.halfedges)^[q] ((bowtie.vertices 0).halfedge)) ∧
      (vtrace bowtie.halfedges 20 ((bowtie.vertices 0).halfedge)).fwdRes.vis.length = 3 ∧
      (vtrace bowtie.halfedges 20 ((bowtie.vertices 0).halfedge)).fwdRes.vis.Nodup ∧
      (vtrace bowtie.halfedges 20 ((bowtie.vertices 0).halfedge)).fwdRes.curr
          = (bowtie.vertices 0).halfedge ∧
      (vtrace bowtie.halfedges 20 ((bowtie.vertices 0).halfedge)).fallback = false ∧
      (vtrace bowtie.halfedges 20 ((bowtie.vertices 0).halfedge)).aborted = false ∧
      ((update_vertex_one 8 20 bowtie 0).vertices 0).valence = (3 : Int)) :=
  ⟨⟨by decide, by decide, by decide, by decide, by decide, by decide, by decide, by decide,
      by decide⟩,
    C5_interior_closed_ring 8 20 3 bowtie 0 (by decide) (by decide) (by decide) (by decide)
      (by decide) (by decide) (by decide) (by decide) (by decide)⟩

/-! ### C10: capacity-truncated accumulation -/

lemma vadd_vzero (a : Vec3) : vadd a vzero = a := by
  simp [vadd, vzero]

lemma vzero_vadd (a : Vec3) : vadd vzero a = a := by
  simp [vadd, vzero]

lemma vadd_assoc (a b c : Vec3) : vadd (vadd a b) c = vadd a (vadd b c) := by
  simp [vadd, add_assoc]

/-- Plain sum of the face weights of a list of half-edges (the spec-side
description of the accumulation: every listed edge contributes). -/
def sumW (m : Mesh) : List Idx → Vec3
  | [] => vzero
  | a :: as => vadd (faceWeight m a) (sumW m as)

lemma sumW_append (m : Mesh) (l1 l2 : List Idx) :
    sumW m (l1 ++ l2) = vadd (sumW m l1) (sumW m l2) := by
  induction l1 with
  | nil => simp [sumW, vzero_vadd]
  | cons a as ih =>
    show sumW m (a :: (as ++ l2)) = _
    rw [show sumW m (a :: (as ++ l2)) = vadd (faceWeight m a) (sumW m (as ++ l2)) from rfl,
      ih, show sumW m (a :: as) = vadd (faceWeight m a) (sumW m as) from rfl, vadd_assoc]

/-- The slot-guarded accumulation equals the plain sum over the part of the
visit list that still fits under the capacity. -/
lemma accumFrom_eq (N : Nat) (m : Mesh) : ∀ (xs : List Idx) (s : Nat),
    accumFrom N m s xs = sumW m (xs.take (N - s)) := by
  intro xs
  induction xs with
  | nil => intro s; simp [accumFrom, sumW]
  | cons a as ih =>
    intro s
    rw [show accumFrom N m s (a :: as)
        = vadd (if s < N then faceWeight m a else vzero) (accumFrom N m (s + 1) as) from rfl]
    by_cases h : s < N
    · rw [if_pos h, ih (s + 1), show N - s = (N - (s + 1)) + 1 by omega, List.take_succ_cons]
      rfl
    · rw [if_neg h, ih (s + 1), show N - s = 0 by omega, show N - (s + 1) = 0 by omega]
      simp [sumW, vzero_vadd]

/-- Relation between the exit value of the C counter `i` and the number of
visited edges in the forward sweep: on a `boundary` exit the last visited
edge was not counted (`i + 1 = i0 + |vis|`); on every other exit
`i = i0 + |vis|`. -/
lemma fwd_i (he : Idx → HalfEdge) (orig : Idx) : ∀ (fuel : Nat) (curr twin : Idx) (i0 : Nat),
    ((fwd he orig fuel curr twin i0).exit = .boundary →
      (fwd he orig fuel curr twin i0).i + 1 = i0 + (fwd he orig fuel curr twin i0).vis.length) ∧
    ((fwd he orig fuel curr twin i0).exit ≠ .boundary →
      (fwd he orig fuel curr twin i0).i = i0 + (fwd he orig fuel curr twin i0).vis.length) := by
  intro fuel
  induction fuel with
  | zero =>
    intro curr twin i0
    constructor
    · intro h; exact absurd h (by simp [fwd])
    · intro _; simp [fwd]
  | succ f ih =>
    intro curr twin i0
    simp only [fwd]
    by_cases h1 : curr = -1
    · rw [if_pos h1]
      constructor
      · intro h; exact absurd h (by simp)
      · intro _; simp
    · rw [if_neg h1]
      by_cases h2 : twin = -1
      · rw [if_pos h2]
        constructor
        · intro _; simp
        · intro h; exact absurd rfl h
      · rw [if_neg h2]
        try simp only []
        by_cases h3 : (he twin).next = orig
        · rw [if_pos h3]
          constructor
          · intro h; exact absurd h (by simp)
          · intro _; simp
        · rw [if_neg h3]
          try dsimp only
          have hih := ih ((he twin).next) ((he ((he twin).next)).twin) (i0 + 1)
          constructor
          · intro h
            have := hih.1 h
            simp only [List.length_cons]
            omega
          · intro h
            have := hih.2 h
            simp only [List.length_cons]
            omega

/-- C10: only the half-edges landing in the first `N_MAX` slots contribute
their face weight to the vertex-normal accumulation — the accumulator equals
the plain weight sum over `take N` of the visit order — while every visited
half-edge (also those beyond the capacity) still gets a length write, and
every reverse-sweep step writes the length to both edges of its pair. -/
theorem C10_truncated_accumulation (N fuel : Nat) (m : Mesh) (v : Idx)
    (hcase : (vtrace m.halfedges fuel ((m.vertices v).halfedge)).revRes = none ∨
      (vtrace m.halfedges fuel ((m.vertices v).halfedge)).fwdRes.exit = .boundary) :
    vertexAcc N m (vtrace m.halfedges fuel ((m.vertices v).halfedge))
        = sumW m (((vtrace m.halfedges fuel ((m.vertices v).halfedge)).fwdRes.vis
            ++ revEdges (vtrace m.halfedges fuel ((m.vertices v).halfedge))).take N) ∧
    (∀ a ∈ (vtrace m.halfedges fuel ((m.vertices v).halfedge)).fwdRes.vis,
      (a, edgeLen m v a)
          ∈ lengthWrites m v (vtrace m.halfedges fuel ((m.vertices v).halfedge))) ∧
    (∀ cp ∈ revPairs (vtrace m.halfedges fuel ((m.vertices v).halfedge)),
      (cp.1, edgeLen m v cp.1)
          ∈ lengthWrites m v (vtrace m.halfedges fuel ((m.vertices v).halfedge)) ∧
      (cp.2, edgeLen m v cp.1)
          ∈ lengthWrites m v (vtrace m.halfedges fuel ((m.vertices v).halfedge))) := by
  refine ⟨?_, ?_, ?_⟩
  · rcases hcase with h | h
    · have hre : revEdges (vtrace m.halfedges fuel ((m.vertices v).halfedge)) = [] := by
        rw [revEdges, h]
      rw [vertexAcc, hre, accumFrom_eq, accumFrom_eq]
      simp only [List.take_nil, List.append_nil, Nat.sub_zero]
      rw [show sumW m [] = vzero from rfl, vadd_vzero]
    · have hfr := vtrace_fwdRes m.halfedges fuel ((m.vertices v).halfedge)
      have hb : (fwd m.halfedges ((m.vertices v).halfedge) fuel ((m.vertices v).halfedge)
          ((m.halfedges ((m.vertices v).halfedge)).twin) 0).exit = .boundary := by
        rw [← hfr]; exact h
      have hcount := (fwd_i m.halfedges ((m.vertices v).halfedge) fuel
        ((m.vertices v).halfedge) ((m.halfedges ((m.vertices v).halfedge)).twin) 0).1 hb
      rw [← hfr] at hcount
      rw [vertexAcc, accumFrom_eq, accumFrom_eq,
        show (vtrace m.halfedges fuel ((m.vertices v).halfedge)).fwdRes.i + 1
            = (vtrace m.halfedges fuel ((m.vertices v).halfedge)).fwdRes.vis.length
          by omega,
        List.take_append_eq_append_take, sumW_append, Nat.sub_zero]
  · intro a ha
    unfold lengthWrites
    apply List.mem_append_left
    exact List.mem_flatMap.mpr ⟨a, ha, List.mem_cons_self _ _⟩
  · intro cp hcp
    constructor
    · unfold lengthWrites
      apply List.mem_append_right
      exact List.mem_flatMap.mpr ⟨cp, hcp, by simp⟩
    · unfold lengthWrites
      apply List.mem_append_right
      exact List.mem_flatMap.mpr ⟨cp, hcp, by simp⟩

/-- Witness for C10 at the open fan (forward sweep exits on the boundary). -/
theorem C10_witness :
    ((vtrace fanMesh.halfedges 20 ((fanMesh.vertices 0).halfedge)).revRes = none ∨
      (vtrace fanMesh.halfedges 20 ((fanMesh.vertices 0).halfedge)).fwdRes.exit = .boundary) ∧
    (vertexAcc 6 fanMesh (vtrace fanMesh.halfedges 20 ((fanMesh.vertices 0).halfedge))
        = sumW fanMesh (((vtrace fanMesh.halfedges 20 ((fanMesh.vertices 0).halfedge)).fwdRes.vis
            ++ revEdges (vtrace fanMesh.halfedges 20 ((fanMesh.vertices 0).halfedge))).take 6) ∧
      (∀ a ∈ (vtrace fanMesh.halfedges 20 ((fanMesh.vertices 0).halfedge)).fwdRes.vis,
        (a, edgeLen fanMesh 0 a)
            ∈ lengthWrites fanMesh 0 (vtrace fanMesh.halfedges 20 ((fanMesh.vertices 0).halfedge))) ∧
      (∀ cp ∈ revPairs (vtrace fanMesh.halfedges 20 ((fanMesh.vertices 0).halfedge)),
        (cp.1, edgeLen fanMesh 0 cp.1)
            ∈ lengthWrites fanMesh 0 (vtrace fanMesh.halfedges 20 ((fanMesh.vertices 0).halfedge)) ∧
        (cp.2, edgeLen fanMesh 0 cp.1)
            ∈ lengthWrites fanMesh 0
                (vtrace fanMesh.halfedges 20 ((fanMesh.vertices 0).halfedge)))) :=
  ⟨Or.inr (by decide), C10_truncated_accumulation 6 20 fanMesh 0 (Or.inr (by decide))⟩

/-! ### C3: the epilogue counter -/

/-- Counting lemma for the reverse sweep, mirroring `fwd_i`: on the mid-body
exits (`farPrev`, `farTwin`, `closedOrig`) the final iteration was not
counted, on the top-of-loop and fuel exits every entered body was counted. -/
lemma rev_i (he : Idx → HalfEdge) (orig : Idx) : ∀ (fuel : Nat) (curr twinE : Idx) (i0 : Nat),
    (((rev he orig fuel curr twinE i0).exit = .farPrev ∨
      (rev he orig fuel curr twinE i0).exit = .farTwin ∨
      (rev he orig fuel curr twinE i0).exit = .closedOrig) →
      (rev he orig fuel curr twinE i0).i + 1 = i0 + (rev he orig fuel curr twinE i0).vis.length ∧
      1 ≤ (rev he orig fuel curr twinE i0).vis.length) ∧
    (((rev he orig fuel curr twinE i0).exit = .sentinel ∨
      (rev he orig fuel curr twinE i0).exit = .fuel) →
      (rev he orig fuel curr twinE i0).i = i0 + (rev he orig fuel curr twinE i0).vis.length) := by
  intro fuel
  induction fuel with
  | zero =>
    intro curr twinE i0
    constructor
    · intro h; rcases h with h | h | h <;> exact absurd h (by simp [rev])
    · intro _; simp [rev]
  | succ f ih =>
    intro curr twinE i0
    simp only [rev]
    by_cases h1 : curr = -1
    · rw [if_pos h1]
      constructor
      · intro h; rcases h with h | h | h <;> exact absurd h (by simp)
      · intro _; simp
    · rw [if_neg h1]
      try simp only []
      by_cases h2 : (he curr).prev = -1
      · rw [if_pos h2]
        constructor
        · intro _; simp
        · intro h; rcases h with h | h <;> exact absurd h (by simp)
      · rw [if_neg h2]
        try simp only []
        by_cases h3 : (he ((he curr).prev)).twin = -1
        · rw [if_pos h3]
          constructor
          · intro _; simp
          · intro h; rcases h with h | h <;> exact absurd h (by simp)
        · rw [if_neg h3]
          by_cases h4 : (he ((he curr).prev)).twin = orig
          · rw [if_pos h4]
            constructor
            · intro _; simp
            · intro h; rcases h with h | h <;> exact absurd h (by simp)
          · rw [if_neg h4]
            try dsimp only
            have hih := ih ((he ((he curr).prev)).twin) ((he curr).prev) (i0 + 1)
            constructor
            · intro h
              have := hih.1 h
              simp only [List.length_cons]
              omega
            · intro h
              have := hih.2 h
              simp only [List.length_cons]
              omega

lemma fwd_sentinel_curr (he : Idx → HalfEdge) (orig : Idx) :
    ∀ (fuel : Nat) (curr twin : Idx) (i0 : Nat),
      (fwd he orig fuel curr twin i0).exit = .sentinel →
      (fwd he orig fuel curr twin i0).curr = -1 := by
  intro fuel
  induction fuel with
  | zero => intro curr twin i0 h; exact absurd h (by simp [fwd])
  | succ f ih =>
    intro curr twin i0
    simp only [fwd]
    by_cases h1 : curr = -1
    · rw [if_pos h1]; intro _; exact h1
    · rw [if_neg h1]
      by_cases h2 : twin = -1
      · rw [if_pos h2]; intro h; exact absurd h (by simp)
      · rw [if_neg h2]
        try simp only []
        by_cases h3 : (he twin).next = orig
        · rw [if_pos h3]; intro h; exact absurd h (by simp)
        · rw [if_neg h3]
          try dsimp only
          exact ih _ _ _

lemma fwd_boundary_state (he : Idx → HalfEdge) (orig : Idx) :
    ∀ (fuel : Nat) (curr twin : Idx) (i0 : Nat),
      (fwd he orig fuel curr twin i0).exit = .boundary →
      (fwd he orig fuel curr twin i0).twin = -1 ∧
      (fwd he orig fuel curr twin i0).curr ≠ -1 := by
  intro fuel
  induction fuel with
  | zero => intro curr twin i0 h; exact absurd h (by simp [fwd])
  | succ f ih =>
    intro curr twin i0
    simp only [fwd]
    by_cases h1 : curr = -1
    · rw [if_pos h1]; intro h; exact absurd h (by simp)
    · rw [if_neg h1]
      by_cases h2 : twin = -1
      · rw [if_pos h2]; intro _; exact ⟨h2, h1⟩
      · rw [if_neg h2]
        try simp only []
        by_cases h3 : (he twin).next = orig
        · rw [if_pos h3]; intro h; exact absurd h (by simp)
        · rw [if_neg h3]
          try dsimp only
          exact ih _ _ _

lemma fwd_closed_twin_val (he : Idx → HalfEdge) (orig : Idx) :
    ∀ (fuel : Nat) (curr twin : Idx) (i0 : Nat),
      (fwd he orig fuel curr twin i0).exit = .closed →
      (fwd he orig fuel curr twin i0).twin = (he orig).twin := by
  intro fuel
  induction fuel with
  | zero => intro curr twin i0 h; exact absurd h (by simp [fwd])
  | succ f ih =>
    intro curr twin i0
    simp only [fwd]
    by_cases h1 : curr = -1
    · rw [if_pos h1]; intro h; exact absurd h (by simp)
    · rw [if_neg h1]
      by_cases h2 : twin = -1
      · rw [if_pos h2]; intro h; exact absurd h (by simp)
      · rw [if_neg h2]
        try simp only []
        by_cases h3 : (he twin).next = orig
        · rw [if_pos h3]
          intro _
          show (he ((he twin).next)).twin = (he orig).twin
          rw [h3]
        · rw [if_neg h3]
          try dsimp only
          exact ih _ _ _

/-- A run started at the anchor cannot exit `.closed` with a sentinel twin:
the closing twin is the anchor twin, and a sentinel anchor twin would have
ended the very first iteration as `.boundary` (or `.sentinel`). -/
lemma fwd_start_closed_twin (he : Idx → HalfEdge) (orig : Idx) (fuel i0 : Nat) :
    (fwd he orig fuel orig ((he orig).twin) i0).exit = .closed →
    (fwd he orig fuel orig ((he orig).twin) i0).twin ≠ -1 := by
  intro hcl
  have hval := fwd_closed_twin_val he orig fuel orig ((he orig).twin) i0 hcl
  rw [hval]
  intro htw
  cases fuel with
  | zero => simp [fwd] at hcl
  | succ f =>
    by_cases ho : orig = -1
    · rw [show fwd he orig (f + 1) orig ((he orig).twin) i0
          = ⟨[], i0, orig, (he orig).twin, [], .sentinel⟩ from by
        simp only [fwd]; rw [if_pos ho]] at hcl
      exact absurd hcl (by simp)
    · rw [show fwd he orig (f + 1) orig ((he orig).twin) i0
          = ⟨[orig], i0, orig, (he orig).twin, [orig], .boundary⟩ from by
        simp only [fwd]; rw [if_neg ho, if_pos htw]] at hcl
      exact absurd hcl (by simp)

/-- If the boundary-fallback gate `twin == -1 && curr != -1` holds after a
forward sweep started at the anchor, the sweep exited `.boundary` (or the
model ran out of fuel). -/
lemma fwd_gate_exit (he : Idx → HalfEdge) (orig : Idx) (fuel i0 : Nat)
    (hgate : (fwd he orig fuel orig ((he orig).twin) i0).twin = -1 ∧
      (fwd he orig fuel orig ((he orig).twin) i0).curr ≠ -1) :
    (fwd he orig fuel orig ((he orig).twin) i0).exit = .boundary ∨
    (fwd he orig fuel orig ((he orig).twin) i0).exit = .fuel := by
  cases hexit : (fwd he orig fuel orig ((he orig).twin) i0).exit with
  | sentinel =>
    have hcur := fwd_sentinel_curr he orig fuel orig ((he orig).twin) i0 hexit
    exact absurd hcur hgate.2
  | boundary => exact Or.inl rfl
  | closed =>
    have htw := fwd_start_closed_twin he orig fuel i0 hexit
    exact absurd hgate.1 htw
  | fuel => exact Or.inr rfl

/-- Taking the fallback with both entry links present: the full trace is the
forward result plus the reverse sweep started at `twin(prev(orig))` with the
counter at `i + 1`. -/
lemma vtrace_fallback_run (he : Idx → HalfEdge) (fuel : Nat) (orig : Idx)
    (hgate : (fwd he orig fuel orig ((he orig).twin) 0).twin = -1 ∧
      (fwd he orig fuel orig ((he orig).twin) 0).curr ≠ -1)
    (hp : (he orig).prev ≠ -1)
    (hc : (he ((he orig).prev)).twin ≠ -1) :
    vtrace he fuel orig =
      ⟨fwd he orig fuel orig ((he orig).twin) 0, true, false,
        some (rev he orig fuel ((he ((he orig).prev)).twin) ((he orig).prev)
          ((fwd he orig fuel orig ((he orig).twin) 0).i + 1)),
        (rev he orig fuel ((he ((he orig).prev)).twin) ((he orig).prev)
          ((fwd he orig fuel orig ((he orig).twin) 0).i + 1)).i⟩ := by
  unfold vtrace
  try simp only []
  rw [if_pos hgate, if_neg hp, if_neg hc]

lemma vtrace_fallback_abort (he : Idx → HalfEdge) (fuel : Nat) (orig : Idx)
    (hgate : (fwd he orig fuel orig ((he orig).twin) 0).twin = -1 ∧
      (fwd he orig fuel orig ((he orig).twin) 0).curr ≠ -1)
    (h : (he orig).prev = -1 ∨ (he ((he orig).prev)).twin = -1) :
    (vtrace he fuel orig).aborted = true := by
  unfold vtrace
  try simp only []
  rw [if_pos hgate]
  by_cases hp : (he orig).prev = -1
  · rw [if_pos hp]
  · rw [if_neg hp]
    rcases h with h | h
    · exact absurd h hp
    · rw [if_pos h]

/-- The number of forward-sweep ring steps (advances `curr = twin.next`):
equals the C counter `i` on exit when started at `i = 0`. -/
def fwdStepsCount (f : FRes) : Nat :=
  if f.exit = FExit.boundary then f.vis.length - 1 else f.vis.length

/-- The number of reverse-sweep ring steps beyond the entry step. -/
def revStepsCount (r : RRes) : Nat :=
  if r.exit = RExit.sentinel ∨ r.exit = RExit.fuel then r.vis.length else r.vis.length - 1

/-- Total ring steps of one vertex traversal: forward advances, plus — when
the reverse sweep ran — its entry step and its advances. -/
def ringSteps (t : VTrace) : Nat :=
  fwdStepsCount t.fwdRes +
    (match t.revRes with
     | none => 0
     | some r => 1 + revStepsCount r)

/-- The reverse sweep did not run out of fuel (trivially true when it never
ran). -/
def revOk (t : VTrace) : Bool :=
  match t.revRes with
  | none => true
  | some r => decide (r.exit ≠ RExit.fuel)

/-- The epilogue value of the C counter equals the number of ring steps
taken across both sweeps. -/
lemma iFinal_eq_ringSteps (he : Idx → HalfEdge) (fuel : Nat) (orig : Idx)
    (hab : (vtrace he fuel orig).aborted = false)
    (hfx : (vtrace he fuel orig).fwdRes.exit ≠ .fuel)
    (hrv : revOk (vtrace he fuel orig) = true) :
    (vtrace he fuel orig).iFinal = ringSteps (vtrace he fuel orig) := by
  by_cases hgate : (fwd he orig fuel orig ((he orig).twin) 0).twin = -1 ∧
      (fwd he orig fuel orig ((he orig).twin) 0).curr ≠ -1
  · by_cases hp : (he orig).prev = -1
    · exact absurd (vtrace_fallback_abort he fuel orig hgate (Or.inl hp)) (by rw [hab]; simp)
    · by_cases hc : (he ((he orig).prev)).twin = -1
      · exact absurd (vtrace_fallback_abort he fuel orig hgate (Or.inr hc)) (by rw [hab]; simp)
      · have hvt := vtrace_fallback_run he fuel orig hgate hp hc
        have hfx2 : (fwd he orig fuel orig ((he orig).twin) 0).exit ≠ .fuel := by
          rw [vtrace_fwdRes he fuel orig] at hfx
          exact hfx
        have hb : (fwd he orig fuel orig ((he orig).twin) 0).exit = .boundary := by
          rcases fwd_gate_exit he orig fuel 0 hgate with h | h
          · exact h
          · exact absurd h hfx2
        have hfi := (fwd_i he orig fuel orig ((he orig).twin) 0).1 hb
        have hrex : (rev he orig fuel ((he ((he orig).prev)).twin) ((he orig).prev)
            ((fwd he orig fuel orig ((he orig).twin) 0).i + 1)).exit ≠ RExit.fuel := by
          rw [hvt] at hrv
          simpa [revOk] using hrv
        have hrvi := rev_i he orig fuel ((he ((he orig).prev)).twin) ((he orig).prev)
          ((fwd he orig fuel orig ((he orig).twin) 0).i + 1)
        rw [hvt]
        try dsimp only
        simp only [ringSteps, fwdStepsCount, revStepsCount]
        try dsimp only
        rw [if_pos hb]
        by_cases hsent : (rev he orig fuel ((he ((he orig).prev)).twin) ((he orig).prev)
            ((fwd he orig fuel orig ((he orig).twin) 0).i + 1)).exit = RExit.sentinel
        · rw [if_pos (Or.inl hsent)]
          have := hrvi.2 (Or.inl hsent)
          omega
        · have hmid : (rev he orig fuel ((he ((he orig).prev)).twin) ((he orig).prev)
              ((fwd he orig fuel orig ((he orig).twin) 0).i + 1)).exit = RExit.farPrev ∨
              (rev he orig fuel ((he ((he orig).prev)).twin) ((he orig).prev)
                ((fwd he orig fuel orig ((he orig).twin) 0).i + 1)).exit = RExit.farTwin ∨
              (rev he orig fuel ((he ((he orig).prev)).twin) ((he orig).prev)
                ((fwd he orig fuel orig ((he orig).twin) 0).i + 1)).exit = RExit.closedOrig := by
            cases h2 : (rev he orig fuel ((he ((he orig).prev)).twin) ((he orig).prev)
                ((fwd he orig fuel orig ((he orig).twin) 0).i + 1)).exit with
            | sentinel => exact absurd h2 hsent
            | fuel => exact absurd h2 hrex
            | farPrev => exact Or.inl rfl
            | farTwin => exact Or.inr (Or.inl rfl)
            | closedOrig => exact Or.inr (Or.inr rfl)
          have := hrvi.1 hmid
          rw [if_neg (not_or.mpr ⟨hsent, hrex⟩)]
          omega
  · have hvt := vtrace_no_fallback he fuel orig hgate
    have hnb : (fwd he orig fuel orig ((he orig).twin) 0).exit ≠ .boundary := by
      intro hb
      exact hgate (fwd_boundary_state he orig fuel orig ((he orig).twin) 0 hb)
    have hfi := (fwd_i he orig fuel orig ((he orig).twin) 0).2 hnb
    rw [hvt]
    try dsimp only
    simp only [ringSteps, fwdStepsCount]
    try dsimp only
    rw [if_neg hnb]
    omega

lemma fillFrom_length (N : Nat) : ∀ (xs l : List Idx) (s : Nat),
    (fillFrom N l s xs).length = l.length := by
  intro xs
  induction xs with
  | nil => intro l s; rfl
  | cons x xs ih =>
    intro l s
    rw [show fillFrom N l s (x :: xs) = fillFrom N (if s < N then l.set s x else l) (s + 1) xs
      from rfl, ih]
    split
    · simp
    · rfl

lemma swapStep_length (l : List Idx) (k : Nat) : (swapStep l k).length = l.length := by
  simp [swapStep]

lemma revLoop_length : ∀ (k : Nat) (l : List Idx), (revLoop l k).length = l.length := by
  intro k
  induction k using Nat.strong_induction_on with
  | _ k ih =>
    intro l
    match k with
    | 0 => rfl
    | 1 => rfl
    | k + 2 =>
      rw [show revLoop l (k + 2) = revLoop (swapStep l (k + 2)) (k + 1) from rfl,
        ih (k + 1) (by omega), swapStep_length]

lemma neighborsFinal_length (N : Nat) (t : VTrace) : (neighborsFinal N t).length = N := by
  unfold neighborsFinal
  try simp only []
  split
  · split
    · rw [revLoop_length, fillFrom_length, List.length_replicate]
    · rw [fillFrom_length, revLoop_length, fillFrom_length, List.length_replicate]
  · rw [fillFrom_length, List.length_replicate]

/-- Element-level description of `fillFrom`: slot `k` receives the `(k-s)`-th
recorded value when it lies in the written, in-capacity window, and is left
alone otherwise (`l` must have length `N`, as the neighbors array does). -/
lemma fillFrom_getD (N : Nat) : ∀ (xs l : List Idx) (s k : Nat), l.length = N →
    (fillFrom N l s xs).getD k (-1)
      = if s ≤ k ∧ k - s < xs.length ∧ k < N then xs.getD (k - s) (-1)
        else l.getD k (-1) := by
  intro xs
  induction xs with
  | nil =>
    intro l s k _
    simp [fillFrom]
  | cons x xs ih =>
    intro l s k hl
    have hlen2 : (if s < N then l.set s x else l).length = N := by
      split
      · simp [hl]
      · exact hl
    rw [show fillFrom N l s (x :: xs) = fillFrom N (if s < N then l.set s x else l) (s + 1) xs
      from rfl, ih _ (s + 1) k hlen2]
    by_cases hk : k = s
    · rw [hk]
      rw [if_neg (by omega)]
      by_cases hsN : s < N
      · rw [if_pos hsN, if_pos ⟨le_refl s, by simp only [List.length_cons]; omega, hsN⟩]
        rw [List.getD_eq_getElem?_getD, List.getElem?_set_eq_of_lt x (by omega)]
        simp
      · rw [if_neg hsN, if_neg (fun hcon => hsN hcon.2.2)]
    · have hset : (if s < N then l.set s x else l).getD k (-1) = l.getD k (-1) := by
        split
        · rw [List.getD_eq_getElem?_getD, List.getElem?_set_ne (by omega),
            ← List.getD_eq_getElem?_getD]
        · rfl
      by_cases hc : s + 1 ≤ k ∧ k - (s + 1) < xs.length ∧ k < N
      · rw [if_pos hc, if_pos ⟨by omega, by simp only [List.length_cons]; omega, hc.2.2⟩]
        rw [show k - s = (k - (s + 1)) + 1 by omega, List.getD_cons_succ]
      · rw [if_neg hc, hset, if_neg ?_]
        intro hrc
        refine hc ⟨by omega, ?_, hrc.2.2⟩
        have := hrc.2.1
        simp only [List.length_cons] at this
        omega

lemma getD_replicate (N k : Nat) : (List.replicate N ((-1 : Idx))).getD k (-1) = -1 := by
  by_cases h : k < N
  · rw [List.getD_eq_getElem _ _ (by simpa using h)]
    simp
  · rw [List.getD_eq_default]
    simpa using h

/-- C3, amended: for every processed vertex (non-sentinel index and anchor)
whose traversal reaches the epilogue — the boundary-fallback entry did not
abort on a sentinel `prev` or `twin` — the stored valence equals the total
number of ring steps taken across the forward sweep and the boundary
fallback. The neighbors array always keeps its fixed capacity `N_MAX`; when
the fallback was not entered, slot `k` holds the `k`-th visited half-edge for
`k < min(valence-related visit count, N_MAX)` and the sentinel elsewhere, so
a count exceeding `N_MAX` leaves only the first `N_MAX` entries recorded
while the valence still reports the true total. (The original claim fails
for vertices whose fallback entry aborts: their valence is never written,
see the counterexample.) -/
theorem C3_amended (N fuel : Nat) (m : Mesh) (v : Idx) (hv : v ≠ -1)
    (ho : (m.vertices v).halfedge ≠ -1)
    (hab : (vtrace m.halfedges fuel ((m.vertices v).halfedge)).aborted = false)
    (hfx : (vtrace m.halfedges fuel ((m.vertices v).halfedge)).fwdRes.exit ≠ .fuel)
    (hrv : revOk (vtrace m.halfedges fuel ((m.vertices v).halfedge)) = true) :
    ((update_vertex_one N fuel m v).vertices v).valence
        = (ringSteps (vtrace m.halfedges fuel ((m.vertices v).halfedge)) : Int) ∧
    ((update_vertex_one N fuel m v).vertices v).neighbors.length = N ∧
    ((vtrace m.halfedges fuel ((m.vertices v).halfedge)).fallback = false →
      ∀ k : Nat,
        ((update_vertex_one N fuel m v).vertices v).neighbors.getD k (-1)
          = if k < (vtrace m.halfedges fuel ((m.vertices v).halfedge)).fwdRes.vis.length ∧ k < N
            then (vtrace m.halfedges fuel ((m.vertices v).halfedge)).fwdRes.vis.getD k (-1)
            else -1) := by
  rw [update_vertex_one_vertex_self N fuel m v hv ho, if_neg (by rw [hab]; simp)]
  refine ⟨?_, ?_, ?_⟩
  · show ((vtrace m.halfedges fuel ((m.vertices v).halfedge)).iFinal : Int) = _
    rw [iFinal_eq_ringSteps m.halfedges fuel ((m.vertices v).halfedge) hab hfx hrv]
  · show (neighborsFinal N (vtrace m.halfedges fuel ((m.vertices v).halfedge))).length = N
    exact neighborsFinal_length N _
  · intro hfb k
    show (neighborsFinal N (vtrace m.halfedges fuel ((m.vertices v).halfedge))).getD k (-1) = _
    rw [show neighborsFinal N (vtrace m.halfedges fuel ((m.vertices v).halfedge))
        = fillFrom N (List.replicate N (-1)) 0
            (vtrace m.halfedges fuel ((m.vertices v).halfedge)).fwdRes.vis from by
      unfold neighborsFinal
      rw [if_neg (by rw [hfb]; simp)]]
    rw [fillFrom_getD N _ _ 0 k (by simp)]
    rw [getD_replicate]
    by_cases hcond : k < (vtrace m.halfedges fuel ((m.vertices v).halfedge)).fwdRes.vis.length ∧
        k < N
    · rw [if_pos ⟨by omega, by omega, hcond.2⟩, if_pos hcond, Nat.sub_zero]
    · rw [if_neg (by omega), if_neg hcond]

/-- Witness for C3 amended at the bowtie apex (closed ring, epilogue
reached). -/
theorem C3_witness :
    ((0 : Idx) ≠ -1 ∧ (bowtie.vertices 0).halfedge ≠ -1 ∧
      (vtrace bowtie.halfedges 20 ((bowtie.vertices 0).halfedge)).aborted = false ∧
      (vtrace bowtie.halfedges 20 ((bowtie.vertices 0).halfedge)).fwdRes.exit ≠ .fuel ∧
      revOk (vtrace bowtie.halfedges 20 ((bowtie.vertices 0).halfedge)) = true) ∧
    (((update_vertex_one 8 20 bowtie 0).vertices 0).valence
        = (ringSteps (vtrace bowtie.halfedges 20 ((bowtie.vertices 0).halfedge)) : Int) ∧
      ((update_vertex_one 8 20 bowtie 0).vertices 0).neighbors.length = 8 ∧
      ((vtrace bowtie.halfedges 20 ((bowtie.vertices 0).halfedge)).fallback = false →
        ∀ k : Nat,
          ((update_vertex_one 8 20 bowtie 0).vertices 0).neighbors.getD k (-1)
            = if k < (vtrace bowtie.halfedges 20 ((bowtie.vertices 0).halfedge)).fwdRes.vis.length
                  ∧ k < 8
              then (vtrace bowtie.halfedges 20 ((bowtie.vertices 0).halfedge)).fwdRes.vis.getD
                  k (-1)
              else -1)) :=
  ⟨⟨by decide, by decide, by decide, by decide, by decide⟩,
    C3_amended 8 20 bowtie 0 (by decide) (by decide) (by decide) (by decide) (by decide)⟩

/-! ### C6: symmetric edge lengths for visited edges -/

lemma revEdges_eq (t : VTrace) : revEdges t = (revPairs t).map Prod.fst := by
  unfold revEdges revPairs
  cases t.revRes <;> rfl

lemma revPrevs_eq (t : VTrace) : revPrevs t = (revPairs t).map Prod.snd := by
  unfold revPrevs revPairs
  cases t.revRes <;> rfl

/-- Structural invariant of the reverse sweep: every visited pair `(c, p)`
satisfies `c = halfedges[p].twin` (the walk reached `c` through `p`). -/
lemma rev_pairs_twin (he : Idx → HalfEdge) (orig : Idx) :
    ∀ (fuel : Nat) (curr twinE : Idx) (i0 : Nat), curr = (he twinE).twin →
      ∀ cp ∈ (rev he orig fuel curr twinE i0).vis, cp.1 = (he cp.2).twin := by
  intro fuel
  induction fuel with
  | zero => intro curr twinE i0 _ cp hcp; exact absurd hcp (by simp [rev])
  | succ f ih =>
    intro curr twinE i0 hct cp hcp
    revert hcp
    simp only [rev]
    by_cases h1 : curr = -1
    · rw [if_pos h1]; intro hcp; exact absurd hcp (by simp)
    · rw [if_neg h1]
      try simp only []
      by_cases h2 : (he curr).prev = -1
      · rw [if_pos h2]
        intro hcp
        have : cp = (curr, twinE) := by simpa using hcp
        rw [this]; exact hct
      · rw [if_neg h2]
        try simp only []
        by_cases h3 : (he ((he curr).prev)).twin = -1
        · rw [if_pos h3]
          intro hcp
          have : cp = (curr, twinE) := by simpa using hcp
          rw [this]; exact hct
        · rw [if_neg h3]
          by_cases h4 : (he ((he curr).prev)).twin = orig
          · rw [if_pos h4]
            intro hcp
            have : cp = (curr, twinE) := by simpa using hcp
            rw [this]; exact hct
          · rw [if_neg h4]
            try dsimp only
            intro hcp
            rcases List.mem_cons.mp hcp with h | h
            · rw [h]; exact hct
            · exact ih ((he ((he curr).prev)).twin) ((he curr).prev) (i0 + 1) rfl cp h

/-- The reverse sweep of a full trace always satisfies the pair invariant. -/
lemma vtrace_revPairs_twin (he : Idx → HalfEdge) (fuel : Nat) (orig : Idx) :
    ∀ cp ∈ revPairs (vtrace he fuel orig), cp.1 = (he cp.2).twin := by
  unfold vtrace
  try simp only []
  by_cases hgate : (fwd he orig fuel orig ((he orig).twin) 0).twin = -1 ∧
      (fwd he orig fuel orig ((he orig).twin) 0).curr ≠ -1
  · rw [if_pos hgate]
    by_cases hp : (he orig).prev = -1
    · rw [if_pos hp]
      intro cp hcp
      exact absurd hcp (by simp [revPairs])
    · rw [if_neg hp]
      by_cases hc : (he ((he orig).prev)).twin = -1
      · rw [if_pos hc]
        intro cp hcp
        exact absurd hcp (by simp [revPairs])
      · rw [if_neg hc]
        intro cp hcp
        have hmem : cp ∈ (rev he orig fuel ((he ((he orig).prev)).twin) ((he orig).prev)
            ((fwd he orig fuel orig ((he orig).twin) 0).i + 1)).vis := by
          simpa [revPairs] using hcp
        exact rev_pairs_twin he orig fuel _ _ _ rfl cp hmem
  · rw [if_neg hgate]
    intro cp hcp
    exact absurd hcp (by simp [revPairs])

/-- Applying a write list never touching `e` leaves `e` unchanged. -/
lemma applyWrites_not_written (e : Idx) : ∀ (ws : List (Idx × ℝ)) (he : Idx → HalfEdge),
    (∀ pr ∈ ws, pr.1 ≠ e) → applyWrites he ws e = he e := by
  intro ws
  induction ws with
  | nil => intro he _; rfl
  | cons w ws ih =>
    intro he hne
    obtain ⟨a, L⟩ := w
    rw [show applyWrites he ((a, L) :: ws)
        = applyWrites (fun x => if x = a then { he x with length := L } else he x) ws from rfl,
      ih _ fun pr hpr => hne pr (List.mem_cons_of_mem _ hpr)]
    have ha : a ≠ e := hne (a, L) (List.mem_cons_self _ _)
    show (if e = a then _ else he e) = he e
    rw [if_neg fun h => ha h.symm]

/-- If every write to `e` in the list carries the value `L` and at least one
write to `e` occurs, then after applying the list the length of `e` is `L`. -/
lemma applyWrites_value (e : Idx) (L : ℝ) :
    ∀ (ws : List (Idx × ℝ)) (he : Idx → HalfEdge),
      (∀ pr ∈ ws, pr.1 = e → pr.2 = L) → (∃ pr ∈ ws, pr.1 = e) →
      (applyWrites he ws e).length = L := by
  intro ws
  induction ws with
  | nil =>
    intro he _ hex
    rcases hex with ⟨pr, hmem, _⟩
    exact absurd hmem (List.not_mem_nil pr)
  | cons w ws ih =>
    intro he hval hex
    obtain ⟨a, L2⟩ := w
    rw [show applyWrites he ((a, L2) :: ws)
        = applyWrites (fun x => if x = a then { he x with length := L2 } else he x) ws from rfl]
    by_cases hex2 : ∃ pr ∈ ws, pr.1 = e
    · exact ih _ (fun pr hpr => hval pr (List.mem_cons_of_mem _ hpr)) hex2
    · have hae : a = e := by
        rcases hex with ⟨pr, hmem, hpre⟩
        rcases List.mem_cons.mp hmem with h | h
        · rw [h] at hpre; exact hpre
        · exact absurd ⟨pr, h, hpre⟩ hex2
      have hL : L2 = L := hval (a, L2) (List.mem_cons_self _ _) hae
      have hnw : ∀ pr ∈ ws, pr.1 ≠ e := by
        intro pr hpr hpre
        exact hex2 ⟨pr, hpr, hpre⟩
      rw [applyWrites_not_written e ws _ hnw]
      show (if e = a then { he e with length := L2 } else he e).length = L
      rw [if_pos hae.symm]
      exact hL

/-- C6, amended: for every half-edge `e` that the ring walk of a processed
vertex `v` actually visits, whose twin `t` exists, with the twin involution
holding on the edges the walk touches and `t` itself not among the visited
edges, the batch leaves `e.length = t.length = norm(pos(v) - pos(e.vertex))`
— the symmetric per-edge write of the spec. (The original claim quantified
over every interior edge with an endpoint in the batch; an interior edge the
walk never reaches keeps its stale length, see the counterexample.) -/
theorem C6_amended (N fuel : Nat) (m : Mesh) (v e : Idx) (hv : v ≠ -1) (hene : e ≠ -1)
    (ho : (m.vertices v).halfedge ≠ -1)
    (he_vis : e ∈ (vtrace m.halfedges fuel ((m.vertices v).halfedge)).fwdRes.vis
        ++ revEdges (vtrace m.halfedges fuel ((m.vertices v).halfedge)))
    (htwne : (m.halfedges e).twin ≠ -1)
    (hinvol : ∀ a ∈ (vtrace m.halfedges fuel ((m.vertices v).halfedge)).fwdRes.vis
        ++ revEdges (vtrace m.halfedges fuel ((m.vertices v).halfedge))
        ++ revPrevs (vtrace m.halfedges fuel ((m.vertices v).halfedge)),
      (m.halfedges a).twin ≠ -1 → (m.halfedges ((m.halfedges a).twin)).twin = a)
    (htnv : (m.halfedges e).twin ∉ (vtrace m.halfedges fuel ((m.vertices v).halfedge)).fwdRes.vis
        ++ revEdges (vtrace m.halfedges fuel ((m.vertices v).halfedge))) :
    ((update_vertex_one N fuel m v).halfedges e).length = edgeLen m v e ∧
    ((update_vertex_one N fuel m v).halfedges ((m.halfedges e).twin)).length
        = edgeLen m v e := by
  have hpair := vtrace_revPairs_twin m.halfedges fuel ((m.vertices v).halfedge)
  have hinv_e : (m.halfedges ((m.halfedges e).twin)).twin = e :=
    hinvol e (List.mem_append_left _ he_vis) htwne
  rw [update_vertex_one_halfedges_self N fuel m v hv ho]
  have hval_e : ∀ pr ∈ lengthWrites m v (vtrace m.halfedges fuel ((m.vertices v).halfedge)),
      pr.1 = e → pr.2 = edgeLen m v e := by
    intro pr hpr hpre
    rcases List.mem_append.mp hpr with h | h
    · rcases List.mem_flatMap.mp h with ⟨a, ha, hpra⟩
      rcases List.mem_cons.mp hpra with h2 | h2
      · rw [h2] at hpre ⊢
        rw [show (a, edgeLen m v a).1 = a from rfl] at hpre
        show edgeLen m v a = edgeLen m v e
        rw [hpre]
      · by_cases hta : (m.halfedges a).twin = -1
        · rw [if_pos hta] at h2
          exact absurd h2 (List.not_mem_nil pr)
        · rw [if_neg hta] at h2
          have h3 : pr = ((m.halfedges a).twin, edgeLen m v a) := by simpa using h2
          rw [h3] at hpre
          rw [show ((m.halfedges a).twin, edgeLen m v a).1 = (m.halfedges a).twin from rfl]
            at hpre
          have hinv_a := hinvol a (List.mem_append_left _ (List.mem_append_left _ ha)) hta
          rw [hpre] at hinv_a
          exfalso
          apply htnv
          rw [hinv_a]
          exact List.mem_append_left _ ha
    · rcases List.mem_flatMap.mp h with ⟨cp, hcp, hpr2⟩
      rcases List.mem_cons.mp hpr2 with h2 | h2
      · rw [h2] at hpre ⊢
        rw [show (cp.1, edgeLen m v cp.1).1 = cp.1 from rfl] at hpre
        show edgeLen m v cp.1 = edgeLen m v e
        rw [hpre]
      · have h3 : pr = (cp.2, edgeLen m v cp.1) := by simpa using h2
        rw [h3] at hpre
        rw [show (cp.2, edgeLen m v cp.1).1 = cp.2 from rfl] at hpre
        have hp2 := hpair cp hcp
        rw [hpre] at hp2
        exfalso
        apply htnv
        apply List.mem_append_right
        rw [revEdges_eq]
        rw [show (m.halfedges e).twin = cp.1 from hp2.symm]
        exact List.mem_map_of_mem Prod.fst hcp
  have hval_t : ∀ pr ∈ lengthWrites m v (vtrace m.halfedges fuel ((m.vertices v).halfedge)),
      pr.1 = (m.halfedges e).twin → pr.2 = edgeLen m v e := by
    intro pr hpr hpre
    rcases List.mem_append.mp hpr with h | h
    · rcases List.mem_flatMap.mp h with ⟨a, ha, hpra⟩
      rcases List.mem_cons.mp hpra with h2 | h2
      · rw [h2] at hpre
        rw [show (a, edgeLen m v a).1 = a from rfl] at hpre
        exfalso
        apply htnv
        rw [← hpre]
        exact List.mem_append_left _ ha
      · by_cases hta : (m.halfedges a).twin = -1
        · rw [if_pos hta] at h2
          exact absurd h2 (List.not_mem_nil pr)
        · rw [if_neg hta] at h2
          have h3 : pr = ((m.halfedges a).twin, edgeLen m v a) := by simpa using h2
          rw [h3] at hpre ⊢
          rw [show ((m.halfedges a).twin, edgeLen m v a).1 = (m.halfedges a).twin from rfl]
            at hpre
          have hinv_a := hinvol a (List.mem_append_left _ (List.mem_append_left _ ha)) hta
          rw [hpre, hinv_e] at hinv_a
          show edgeLen m v a = edgeLen m v e
          rw [hinv_a]
    · rcases List.mem_flatMap.mp h with ⟨cp, hcp, hpr2⟩
      rcases List.mem_cons.mp hpr2 with h2 | h2
      · rw [h2] at hpre
        rw [show (cp.1, edgeLen m v cp.1).1 = cp.1 from rfl] at hpre
        exfalso
        apply htnv
        apply List.mem_append_right
        rw [revEdges_eq, ← hpre]
        exact List.mem_map_of_mem Prod.fst hcp
      · have h3 : pr = (cp.2, edgeLen m v cp.1) := by simpa using h2
        rw [h3] at hpre ⊢
        rw [show (cp.2, edgeLen m v cp.1).1 = cp.2 from rfl] at hpre
        have hp2 := hpair cp hcp
        rw [hpre, hinv_e] at hp2
        show edgeLen m v cp.1 = edgeLen m v e
        rw [hp2]
  constructor
  · apply applyWrites_value e (edgeLen m v e) _ _ hval_e
    rcases List.mem_append.mp he_vis with h | h
    · exact ⟨(e, edgeLen m v e),
        List.mem_append_left _ (List.mem_flatMap.mpr ⟨e, h, List.mem_cons_self _ _⟩), rfl⟩
    · rw [revEdges_eq] at h
      rcases List.mem_map.mp h with ⟨cp, hcp, hcp1⟩
      refine ⟨(cp.1, edgeLen m v cp.1),
        List.mem_append_right _ (List.mem_flatMap.mpr ⟨cp, hcp, List.mem_cons_self _ _⟩), hcp1⟩
  · apply applyWrites_value ((m.halfedges e).twin) (edgeLen m v e) _ _ hval_t
    rcases List.mem_append.mp he_vis with h | h
    · refine ⟨((m.halfedges e).twin, edgeLen m v e),
        List.mem_append_left _ (List.mem_flatMap.mpr ⟨e, h, ?_⟩), rfl⟩
      rw [if_neg htwne]
      exact List.mem_cons_of_mem _ (List.mem_cons_self _ _)
    · rw [revEdges_eq] at h
      rcases List.mem_map.mp h with ⟨cp, hcp, hcp1⟩
      have hp2 := hpair cp hcp
      have hcp2tw : (m.halfedges cp.2).twin ≠ -1 := by
        rw [← hp2, hcp1]
        exact hene
      have hinv_p := hinvol cp.2 (List.mem_append_right _ (by
        rw [revPrevs_eq]
        exact List.mem_map_of_mem Prod.snd hcp)) hcp2tw
      have hcp2 : cp.2 = (m.halfedges e).twin := by
        rw [← hinv_p, ← hp2, hcp1]
      refine ⟨(cp.2, edgeLen m v cp.1),
        List.mem_append_right _ (List.mem_flatMap.mpr ⟨cp, hcp, ?_⟩), hcp2⟩
      exact List.mem_cons_of_mem _ (List.mem_cons_self _ _)

/-- Witness for C6 amended: spoke 0 of the bowtie (twin 8) is visited by the
walk around the apex, and both copies receive the symmetric length. -/
theorem C6_witness :
    ((0 : Idx) ≠ -1 ∧ (0 : Idx) ≠ -1 ∧ (bowtie.vertices 0).halfedge ≠ -1 ∧
      (0 : Idx) ∈ (vtrace bowtie.halfedges 20 ((bowtie.vertices 0).halfedge)).fwdRes.vis
          ++ revEdges (vtrace bowtie.halfedges 20 ((bowtie.vertices 0).halfedge)) ∧
      (bowtie.halfedges 0).twin ≠ -1 ∧
      (∀ a ∈ (vtrace bowtie.halfedges 20 ((bowtie.vertices 0).halfedge)).fwdRes.vis
          ++ revEdges (vtrace bowtie.halfedges 20 ((bowtie.vertices 0).halfedge))
          ++ revPrevs (vtrace bowtie.halfedges 20 ((bowtie.vertices 0).halfedge)),
        (bowtie.halfedges a).twin ≠ -1 →
          (bowtie.halfedges ((bowtie.halfedges a).twin)).twin = a) ∧
      (bowtie.halfedges 0).twin ∉
        (vtrace bowtie.halfedges 20 ((bowtie.vertices 0).halfedge)).fwdRes.vis
          ++ revEdges (vtrace bowtie.halfedges 20 ((bowtie.vertices 0).halfedge))) ∧
    (((update_vertex_one 8 20 bowtie 0).halfedges 0).length = edgeLen bowtie 0 0 ∧
      ((update_vertex_one 8 20 bowtie 0).halfedges ((bowtie.halfedges 0).twin)).length
          = edgeLen bowtie 0 0) :=
  ⟨⟨by decide, by decide, by decide, by decide, by decide, by decide, by decide⟩,
    C6_amended 8 20 bowtie 0 0 (by decide) (by decide) (by decide) (by decide) (by decide)
      (by decide) (by decide)⟩

/-! ### C8: normalization -/

lemma norm3_nonneg (w : Vec3) : 0 ≤ norm3 w := Real.sqrt_nonneg _

/-- Normalizing a vector of positive norm yields a unit vector. -/
lemma norm3_vdiv_self (w : Vec3) (h : norm3 w > 0) : norm3 (vdiv w (norm3 w)) = 1 := by
  have hS : 0 < w.x * w.x + w.y * w.y + w.z * w.z := Real.sqrt_pos.mp h
  unfold norm3 vdiv
  have hs : Real.sqrt (w.x * w.x + w.y * w.y + w.z * w.z)
      * Real.sqrt (w.x * w.x + w.y * w.y + w.z * w.z)
      = w.x * w.x + w.y * w.y + w.z * w.z := Real.mul_self_sqrt (le_of_lt hS)
  rw [div_mul_div_comm, div_mul_div_comm, div_mul_div_comm, hs, div_add_div_same,
    div_add_div_same, div_self (ne_of_gt hS), Real.sqrt_one]

/-- C8, amended: every normal either routine writes is a unit vector exactly
when the vector being normalized (the cross product for a face, the
area-weighted accumulator for a vertex) has positive norm, and the zero
vector otherwise. Cancellation can zero the accumulator even when nonzero
faces are incident (see the counterexample), so zero accumulated weight — not
merely an isolated or degenerate ring — is the real condition for the zero
vertex normal. -/
theorem C8_amended :
    (∀ (m : Mesh) (f : Idx), f ≠ -1 → (m.faces f).halfedge ≠ -1 →
      (m.halfedges ((m.faces f).halfedge)).prev ≠ -1 →
      (m.halfedges ((m.faces f).halfedge)).next ≠ -1 →
      (norm3 (faceCrossVec m f) > 0 → norm3 (((update_face_one m f).faces f).normal) = 1) ∧
      (¬ norm3 (faceCrossVec m f) > 0 → ((update_face_one m f).faces f).normal = vzero)) ∧
    (∀ (N fuel : Nat) (m : Mesh) (v : Idx), v ≠ -1 → (m.vertices v).halfedge ≠ -1 →
      (vtrace m.halfedges fuel ((m.vertices v).halfedge)).aborted = false →
      (norm3 (vertexAcc N m (vtrace m.halfedges fuel ((m.vertices v).halfedge))) > 0 →
        norm3 (((update_vertex_one N fuel m v).vertices v).normal) = 1) ∧
      (¬ norm3 (vertexAcc N m (vtrace m.halfedges fuel ((m.vertices v).halfedge))) > 0 →
        ((update_vertex_one N fuel m v).vertices v).normal = vzero)) := by
  constructor
  · intro m f hf hh hp hn
    have hspec := update_face_one_spec m f hf hh hp hn
    constructor
    · intro hpos
      rw [hspec]
      show norm3 (if norm3 (faceCrossVec m f) > 0 then
          vdiv (faceCrossVec m f) (norm3 (faceCrossVec m f)) else vzero) = 1
      rw [if_pos hpos]
      exact norm3_vdiv_self _ hpos
    · intro hneg
      rw [hspec]
      show (if norm3 (faceCrossVec m f) > 0 then
          vdiv (faceCrossVec m f) (norm3 (faceCrossVec m f)) else vzero) = vzero
      rw [if_neg hneg]
  · intro N fuel m v hv ho hab
    rw [update_vertex_one_vertex_self N fuel m v hv ho, if_neg (by rw [hab]; simp)]
    constructor
    · intro hpos
      show norm3 (if norm3 (vertexAcc N m (vtrace m.halfedges fuel ((m.vertices v).halfedge)))
            > 0 then
          vdiv (vertexAcc N m (vtrace m.halfedges fuel ((m.vertices v).halfedge)))
            (norm3 (vertexAcc N m (vtrace m.halfedges fuel ((m.vertices v).halfedge))))
        else vzero) = 1
      rw [if_pos hpos]
      exact norm3_vdiv_self _ hpos
    · intro hneg
      show (if norm3 (vertexAcc N m (vtrace m.halfedges fuel ((m.vertices v).halfedge)))
            > 0 then
          vdiv (vertexAcc N m (vtrace m.halfedges fuel ((m.vertices v).halfedge)))
            (norm3 (vertexAcc N m (vtrace m.halfedges fuel ((m.vertices v).halfedge))))
        else vzero) = vzero
      rw [if_neg hneg]

/-! ### The double-sided triangle: two faces over the same three vertices
with opposite winding. Every edge is interior, vertex 0 has the closed ring
`0 → 3 → 0`, and the two face normals are exactly opposite with equal areas,
so their area-weighted sum at the shared vertex cancels to zero. -/

def dblHE : Idx → HalfEdge := fun i =>
  if i = 0 then ⟨1, 5, 1, 2, 0, 0⟩
  else if i = 1 then ⟨2, 4, 2, 0, 0, 0⟩
  else if i = 2 then ⟨0, 3, 0, 1, 0, 0⟩
  else if i = 3 then ⟨2, 2, 4, 5, 1, 0⟩
  else if i = 4 then ⟨1, 1, 5, 3, 1, 0⟩
  else if i = 5 then ⟨0, 0, 3, 4, 1, 0⟩
  else heNone

def dblV : Idx → Vertex := fun i =>
  if i = 0 then ⟨⟨0, 0, 0⟩, ⟨9, 9, 9⟩, 0, -7, [-1, -1, -1, -1, -1, -1, -1, -1]⟩
  else if i = 1 then ⟨⟨1, 0, 0⟩, vzero, -1, 0, []⟩
  else if i = 2 then ⟨⟨0, 1, 0⟩, vzero, -1, 0, []⟩
  else vNone

def dblF : Idx → Face := fun i =>
  if i = 0 then ⟨0, vzero, 0⟩
  else if i = 1 then ⟨3, vzero, 0⟩
  else fNone

def dbl : Mesh := ⟨dblHE, dblV, dblF⟩

lemma faceCrossVec_congr (m m2 : Mesh) (f : Idx)
    (hhe : m.halfedges = m2.halfedges) (hv : m.vertices = m2.vertices)
    (hf : m.faces f = m2.faces f) :
    faceCrossVec m f = faceCrossVec m2 f := by
  unfold faceCrossVec faceCorner0 faceCorner1 faceCorner2
  rw [hhe, hv, hf]

lemma update_face_normals_halfedges (idxs : List Idx) (m : Mesh) :
    (update_face_normals idxs m).halfedges = m.halfedges := by
  induction idxs generalizing m with
  | nil => rfl
  | cons a as ih =>
    show (update_face_normals as (update_face_one m a)).halfedges = _
    rw [ih (update_face_one m a), update_face_one_halfedges]

/-- C8, counterexample: on the double-sided triangle, after
`update_face_normals([0, 1])` the faces have nonzero area `1/2`, yet
`update_vertex_neighbors` writes the zero vector (norm `0`, not `1`) as the
normal of vertex 0: the two opposite unit face normals cancel in the
area-weighted accumulation. -/
theorem C8_counterexample :
    ((update_vertex_one 8 20 (update_face_normals [0, 1] dbl) 0).vertices 0).normal = vzero ∧
    norm3 vzero = 0 ∧ (0 : ℝ) ≠ 1 ∧
    ((update_face_normals [0, 1] dbl).faces 0).area = 1 / 2 := by
  have hm0he : (update_face_one dbl 0).halfedges = dbl.halfedges := update_face_one_halfedges dbl 0
  have hm0v : (update_face_one dbl 0).vertices = dbl.vertices := update_face_one_vertices dbl 0
  have hbatch : update_face_normals [0, 1] dbl = update_face_one (update_face_one dbl 0) 1 := rfl
  have hm1he : (update_face_normals [0, 1] dbl).halfedges = dbl.halfedges := by
    rw [hbatch, update_face_one_halfedges, hm0he]
  have hm1v : (update_face_normals [0, 1] dbl).vertices = dbl.vertices := by
    rw [hbatch, update_face_one_vertices, hm0v]
  have hc0 : faceCrossVec dbl 0 = ⟨0, 0, -1⟩ := by
    simp only [faceCrossVec, faceCorner0, faceCorner1, faceCorner2, dbl, dblHE, dblV, dblF,
      cross, vsub]
    norm_num
  have hc1 : faceCrossVec (update_face_one dbl 0) 1 = ⟨0, 0, 1⟩ := by
    rw [faceCrossVec_congr (update_face_one dbl 0) dbl 1 hm0he hm0v
      (update_face_one_faces_other dbl 0 1 (by decide))]
    simp only [faceCrossVec, faceCorner0, faceCorner1, faceCorner2, dbl, dblHE, dblV, dblF,
      cross, vsub]
    norm_num
  have hnm1 : norm3 (⟨0, 0, -1⟩ : Vec3) = 1 := by
    simp only [norm3]
    rw [show (0 : ℝ) * 0 + 0 * 0 + (-1) * (-1) = 1 by norm_num, Real.sqrt_one]
  have hnp1 : norm3 (⟨0, 0, 1⟩ : Vec3) = 1 := by
    simp only [norm3]
    rw [show (0 : ℝ) * 0 + 0 * 0 + 1 * 1 = 1 by norm_num, Real.sqrt_one]
  have hface0 : (update_face_normals [0, 1] dbl).faces 0 = ⟨0, ⟨0, 0, -1⟩, 1 / 2⟩ := by
    rw [hbatch, update_face_one_faces_other _ 1 0 (by decide),
      update_face_one_spec dbl 0 (by decide) (by decide) (by decide) (by decide), hc0, hnm1,
      if_pos (by norm_num : (1 : ℝ) > 0)]
    simp [vdiv, dbl, dblF]
  have hface1 : (update_face_normals [0, 1] dbl).faces 1 = ⟨3, ⟨0, 0, 1⟩, 1 / 2⟩ := by
    rw [hbatch, update_face_one_spec (update_face_one dbl 0) 1 (by decide)
      (by rw [update_face_one_faces_other dbl 0 1 (by decide)]; decide)
      (by rw [update_face_one_faces_other dbl 0 1 (by decide), hm0he]; decide)
      (by rw [update_face_one_faces_other dbl 0 1 (by decide), hm0he]; decide), hc1, hnp1,
      if_pos (by norm_num : (1 : ℝ) > 0), update_face_one_faces_other dbl 0 1 (by decide)]
    simp [vdiv, dbl, dblF]
  have hanchor : ((update_face_normals [0, 1] dbl).vertices 0).halfedge = (0 : Idx) := by
    rw [hm1v]
    decide
  have hvs := update_vertex_one_vertex_self 8 20 (update_face_normals [0, 1] dbl) 0
    (by decide) (by rw [hanchor]; decide)
  rw [hanchor, hm1he] at hvs
  have htr1 : (vtrace dbl.halfedges 20 0).fwdRes.vis = [0, 3] := by decide
  have htr2 : (vtrace dbl.halfedges 20 0).fwdRes.i = 2 := by decide
  have htr3 : revEdges (vtrace dbl.halfedges 20 0) = [] := by
    unfold revEdges
    rw [show (vtrace dbl.halfedges 20 0).revRes = none from by decide]
  have hfw0 : faceWeight (update_face_normals [0, 1] dbl) 0 = vsmul (1 / 2) ⟨0, 0, -1⟩ := by
    unfold faceWeight
    rw [hm1he, show (dbl.halfedges 0).face = (0 : Idx) from rfl, hface0]
  have hfw3 : faceWeight (update_face_normals [0, 1] dbl) 3 = vsmul (1 / 2) ⟨0, 0, 1⟩ := by
    unfold faceWeight
    rw [hm1he, show (dbl.halfedges 3).face = (1 : Idx) from rfl, hface1]
  have hacc : vertexAcc 8 (update_face_normals [0, 1] dbl) (vtrace dbl.halfedges 20 0)
      = vzero := by
    unfold vertexAcc
    rw [htr1, htr2, htr3]
    simp only [accumFrom]
    rw [if_pos (by norm_num : (0 : Nat) < 8), if_pos (by norm_num : (1 : Nat) < 8), hfw0, hfw3]
    simp [vadd, vsmul, vzero]
    try norm_num
  have hnz : norm3 vzero = 0 := by
    simp [norm3, vzero]
  refine ⟨?_, hnz, by norm_num, by rw [hface0]⟩
  rw [hvs, if_neg (by decide)]
  show (if norm3 (vertexAcc 8 (update_face_normals [0, 1] dbl) (vtrace dbl.halfedges 20 0))
        > 0 then
      vdiv (vertexAcc 8 (update_face_normals [0, 1] dbl) (vtrace dbl.halfedges 20 0))
        (norm3 (vertexAcc 8 (update_face_normals [0, 1] dbl) (vtrace dbl.halfedges 20 0)))
    else vzero) = vzero
  rw [hacc, hnz]
  rw [if_neg (by norm_num)]

/-- Witness for C8 amended: the single triangle face gets a unit normal; the
broken-next vertex run accumulates zero weight and gets the zero normal. -/
theorem C8_witness :
    (((0 : Idx) ≠ -1 ∧ (triMesh.faces 0).halfedge ≠ -1 ∧
      (triMesh.halfedges ((triMesh.faces 0).halfedge)).prev ≠ -1 ∧
      (triMesh.halfedges ((triMesh.faces 0).halfedge)).next ≠ -1 ∧
      norm3 (faceCrossVec triMesh 0) > 0) ∧
      ((0 : Idx) ≠ -1 ∧ (brokenMesh.vertices 0).halfedge ≠ -1 ∧
        (vtrace brokenMesh.halfedges 10 ((brokenMesh.vertices 0).halfedge)).aborted = false ∧
        ¬ norm3 (vertexAcc 6 brokenMesh
            (vtrace brokenMesh.halfedges 10 ((brokenMesh.vertices 0).halfedge))) > 0)) ∧
    (norm3 (((update_face_one triMesh 0).faces 0).normal) = 1 ∧
      ((update_vertex_one 6 10 brokenMesh 0).vertices 0).normal = vzero) := by
  have hpos : norm3 (faceCrossVec triMesh 0) > 0 := by
    rw [tri_cross, tri_norm]
    norm_num
  have hbacc : vertexAcc 6 brokenMesh
      (vtrace brokenMesh.halfedges 10 ((brokenMesh.vertices 0).halfedge)) = vzero := by
    unfold vertexAcc
    rw [show (vtrace brokenMesh.halfedges 10
        ((brokenMesh.vertices 0).halfedge)).fwdRes.vis = [0] from by decide,
      show (vtrace brokenMesh.halfedges 10
        ((brokenMesh.vertices 0).halfedge)).fwdRes.i = 1 from by decide,
      show revEdges (vtrace brokenMesh.halfedges 10 ((brokenMesh.vertices 0).halfedge)) = []
        from by
          unfold revEdges
          rw [show (vtrace brokenMesh.halfedges 10
            ((brokenMesh.vertices 0).halfedge)).revRes = none from by decide]]
    simp only [accumFrom]
    rw [if_pos (by norm_num : (0 : Nat) < 6)]
    unfold faceWeight
    simp [brokenMesh, brokenHE, brokenF, vadd, vsmul, vzero]
  have hzero : ¬ norm3 (vertexAcc 6 brokenMesh
      (vtrace brokenMesh.halfedges 10 ((brokenMesh.vertices 0).halfedge))) > 0 := by
    rw [hbacc, show norm3 vzero = 0 from by simp [norm3, vzero]]
    norm_num
  exact ⟨⟨⟨by decide, by decide, by decide, by decide, hpos⟩,
      ⟨by decide, by decide, by decide, hzero⟩⟩,
    (C8_amended.1 triMesh 0 (by decide) (by decide) (by decide) (by decide)).1 hpos,
    (C8_amended.2 6 10 brokenMesh 0 (by decide) (by decide) (by decide)).2 hzero⟩

end

end TriMesh
